import Mathlib

/-! BankingSystem.c: accounts, transaction stacks and undo

A shallow embedding of `src/BankingSystem.c`.

* The global linked list `head` of `Account` nodes is a `List Account`; the node at the
  front of the list is `head`, and `next` pointers are the list structure.
* The per-account linked stack `top` of `Transaction` nodes is a `List Transaction`
  whose first element is the top of the stack.
* Values read with `scanf` are arguments of the embedded functions; what a function
  prints is its `Output`.
* Amounts and balances have the C type `float`.  They are modelled by `F32`, the IEEE 754
  binary32 values with round-to-nearest-even addition and subtraction, so that the
  rounding of `balance += amt` and `balance -= amt` is part of the model.
-/

namespace BankingSystem

set_option maxRecDepth 8192

/-! ## Single-precision arithmetic -/

/-- Number of binary digits of `n` (`0` for `0`); the first argument is recursion fuel. -/
def bitLen : Nat → Nat → Nat
  | 0, _ => 0
  | fuel + 1, n => if n = 0 then 0 else bitLen fuel (n / 2) + 1

/-- Values of the C type `float` (IEEE 754 binary32).
`fin neg m e` is the finite number `(-1)^neg * m * 2^e`.  The values the arithmetic
produces are in the format's normal form: `e = -149` and `m < 2^23` (zero and
subnormals), or `2^23 ≤ m < 2^24` and `-149 ≤ e ≤ 104`. -/
inductive F32 where
  | nan : F32
  | inf (neg : Bool) : F32
  | fin (neg : Bool) (m : Nat) (e : Int) : F32
  deriving DecidableEq

namespace F32

/-- Round the exact magnitude `M * 2^e` to binary32, to nearest, ties to even. -/
def roundNE (neg : Bool) (M : Nat) (e : Int) : F32 :=
  if M = 0 then fin neg 0 (-149)
  else
    let E : Int := max (e + (bitLen M M : Int) - 24) (-149)
    if E ≤ e then
      if E > 104 then inf neg else fin neg (M * 2 ^ (e - E).toNat) E
    else
      let s := (E - e).toNat
      let q := M / 2 ^ s
      let r := M % 2 ^ s
      let half := 2 ^ (s - 1)
      let q1 := if half < r ∨ (r = half ∧ q % 2 = 1) then q + 1 else q
      let m1 := if q1 = 16777216 then 8388608 else q1
      let E1 := if q1 = 16777216 then E + 1 else E
      if E1 > 104 then inf neg else fin neg m1 E1

/-- The integer `(-1)^neg * m`. -/
def signed (neg : Bool) (m : Nat) : Int := if neg then -(m : Int) else (m : Int)

/-- Float addition `a + b`: the exact sum, rounded once. -/
def add : F32 → F32 → F32
  | nan, _ => nan
  | _, nan => nan
  | inf s, inf t => if s = t then inf s else nan
  | inf s, fin _ _ _ => inf s
  | fin _ _ _, inf t => inf t
  | fin s1 m1 e1, fin s2 m2 e2 =>
    let e := min e1 e2
    let z := signed s1 (m1 * 2 ^ (e1 - e).toNat) + signed s2 (m2 * 2 ^ (e2 - e).toNat)
    if z = 0 then fin (s1 && s2) 0 (-149) else roundNE (decide (z < 0)) z.natAbs e

/-- Float negation `-a`. -/
def neg : F32 → F32
  | nan => nan
  | inf s => inf (!s)
  | fin s m e => fin (!s) m e

/-- Float subtraction `a - b`. -/
def sub (a b : F32) : F32 := add a (neg b)

/-- The C comparison `a > b` (false when either side is a NaN). -/
def gt : F32 → F32 → Bool
  | nan, _ => false
  | _, nan => false
  | inf s, inf t => !s && t
  | inf s, fin _ _ _ => !s
  | fin _ _ _, inf t => t
  | fin s1 m1 e1, fin s2 m2 e2 =>
    let e := min e1 e2
    decide (signed s2 (m2 * 2 ^ (e2 - e).toNat) < signed s1 (m1 * 2 ^ (e1 - e).toNat))

/-- The C comparison `a <= b` (false when either side is a NaN). -/
def le : F32 → F32 → Bool
  | nan, _ => false
  | _, nan => false
  | inf s, inf t => s || !t
  | inf s, fin _ _ _ => s
  | fin _ _ _, inf t => !t
  | fin s1 m1 e1, fin s2 m2 e2 =>
    let e := min e1 e2
    decide (signed s1 (m1 * 2 ^ (e1 - e).toNat) ≤ signed s2 (m2 * 2 ^ (e2 - e).toNat))

/-- The float `0`, as in `return 0;`. -/
def zero : F32 := fin false 0 (-149)

/-- The float nearest to the natural number `n`. -/
def ofNat (n : Nat) : F32 := roundNE false n 0

/-- The float nearest to the integer `-n`. -/
def ofNegNat (n : Nat) : F32 := roundNE true n 0

end F32

/-! ## Data model -/

/-- Transaction stack node (`struct Transaction`); `next` is the tail of the list. -/
structure Transaction where
  type : String
  amount : F32
  deriving DecidableEq

/-- Account node (`struct Account`); `top` is the transaction stack, newest entry first. -/
structure Account where
  acc_no : Int
  name : String
  balance : F32
  top : List Transaction
  deriving DecidableEq

/-- What an operation prints. -/
inductive Output where
  | accountAdded
  | noSuchAccount
  | depositSuccessful (newBalance : F32)
  | insufficientFunds
  | withdrawalSuccessful (newBalance : F32)
  | nothingToUndo
  | undone (type : String) (amt : F32) (newBalance : F32)
  | accountDeleted
  deriving DecidableEq

/-! ## Stack methods -/

/-- `push_trans`: a new node becomes the top of the stack. -/
def push_trans (top : List Transaction) (type : String) (amount : F32) : List Transaction :=
  { type := type, amount := amount } :: top

/-- `pop_trans`: returns the amount, the type copied to `type_out`, and the new stack.
On an empty stack it returns `0` and leaves `type_out` and the stack as they are. -/
def pop_trans (top : List Transaction) (type_out : String) :
    F32 × String × List Transaction :=
  match top with
  | [] => (F32.zero, type_out, [])
  | tmp :: next => (tmp.amount, tmp.type, next)

/-! ## Linked list methods -/

/-- `find_account`: the first node of the list with the given number, or `NULL`. -/
def find_account : List Account → Int → Option Account
  | [], _ => none
  | p :: next, acc_no => if p.acc_no = acc_no then some p else find_account next acc_no

/-- Assignment through the pointer returned by `find_account head acc_no`: the first node
with the given number is replaced by `acc`, every other node stays in place. -/
def write_account : List Account → Int → Account → List Account
  | [], _, _ => []
  | p :: next, acc_no, acc =>
    if p.acc_no = acc_no then acc :: next else p :: write_account next acc_no acc

/-- `add_account`: the new node is linked in front of the list. -/
def add_account (head : List Account) (acc_no : Int) (name : String) (amt : F32) :
    Output × List Account :=
  let acc : Account :=
    { acc_no := acc_no, name := name, balance := amt, top := push_trans [] "Initial" amt }
  (Output.accountAdded, acc :: head)

/-- `deposit`. -/
def deposit (head : List Account) (acc_no : Int) (amt : F32) : Output × List Account :=
  match find_account head acc_no with
  | none => (Output.noSuchAccount, head)
  | some acc =>
    let balance := F32.add acc.balance amt
    (Output.depositSuccessful balance,
      write_account head acc_no
        { acc with balance := balance, top := push_trans acc.top "Deposit" amt })

/-- `withdraw`. -/
def withdraw (head : List Account) (acc_no : Int) (amt : F32) : Output × List Account :=
  match find_account head acc_no with
  | none => (Output.noSuchAccount, head)
  | some acc =>
    if F32.gt amt acc.balance then (Output.insufficientFunds, head)
    else
      let balance := F32.sub acc.balance amt
      (Output.withdrawalSuccessful balance,
        write_account head acc_no
          { acc with balance := balance, top := push_trans acc.top "Withdraw" amt })

/-- `show_accounts`: one row `(acc_no, name, balance)` per node, in list order. -/
def show_accounts (head : List Account) : List (Int × String × F32) :=
  head.map fun p => (p.acc_no, p.name, p.balance)

/-- `show_transactions`: `none` stands for "No such account."; otherwise the name of the
header line and one row `(type, amount)` per stack node, from the top down. -/
def show_transactions (head : List Account) (acc_no : Int) :
    Option (String × List (String × F32)) :=
  match find_account head acc_no with
  | none => none
  | some acc => some (acc.name, acc.top.map fun t => (t.type, t.amount))

/-- The test `acc->top && acc->top->next`. -/
def has_second : List Transaction → Bool
  | _ :: _ :: _ => true
  | _ => false

/-- `undo_transaction`.  The same message is printed when the account is missing and when
its stack has fewer than two nodes.  The local buffer `type` is passed to `pop_trans` as
the empty string; `pop_trans` overwrites it, the stack being non-empty at the call. -/
def undo_transaction (head : List Account) (acc_no : Int) : Output × List Account :=
  match find_account head acc_no with
  | none => (Output.nothingToUndo, head)
  | some acc =>
    if has_second acc.top then
      let r := pop_trans acc.top ""
      let amt := r.1
      let type := r.2.1
      let balance :=
        if type = "Deposit" then F32.sub acc.balance amt
        else if type = "Withdraw" then F32.add acc.balance amt
        else acc.balance
      (Output.undone type amt balance,
        write_account head acc_no { acc with balance := balance, top := r.2.2 })
    else (Output.nothingToUndo, head)

/-- `delete_account`: unlinks the first node with the given number (its transaction
stack is popped empty and the node freed). -/
def delete_account : List Account → Int → Output × List Account
  | [], _ => (Output.noSuchAccount, [])
  | p :: next, acc_no =>
    if p.acc_no = acc_no then (Output.accountDeleted, next)
    else ((delete_account next acc_no).1, p :: (delete_account next acc_no).2)

/-! ## The menu loop -/

/-- One menu choice together with the values it reads. -/
inductive Cmd where
  | add (acc_no : Int) (name : String) (amt : F32)
  | showAll
  | deposit (acc_no : Int) (amt : F32)
  | withdraw (acc_no : Int) (amt : F32)
  | showTrans (acc_no : Int)
  | undo (acc_no : Int)
  | delete (acc_no : Int)
  deriving DecidableEq

/-- The `switch` of `main`: the list after one menu choice. -/
def exec (head : List Account) : Cmd → List Account
  | Cmd.add acc_no name amt => (add_account head acc_no name amt).2
  | Cmd.showAll => head
  | Cmd.deposit acc_no amt => (deposit head acc_no amt).2
  | Cmd.withdraw acc_no amt => (withdraw head acc_no amt).2
  | Cmd.showTrans _ => head
  | Cmd.undo acc_no => (undo_transaction head acc_no).2
  | Cmd.delete acc_no => (delete_account head acc_no).2

/-- The loop of `main` over a finite sequence of menu choices. -/
def main_loop (head : List Account) (cmds : List Cmd) : List Account :=
  cmds.foldl exec head

/-! ## Specification-side definitions -/

/-- The balance implied by a ledger, as the specification words it: fold from the oldest
entry (last of the list) to the newest; Initial sets, Deposit adds, Withdraw subtracts. -/
def replay : List Transaction → F32
  | [] => F32.zero
  | t :: older =>
    if t.type = "Initial" then t.amount
    else if t.type = "Deposit" then F32.add (replay older) t.amount
    else if t.type = "Withdraw" then F32.sub (replay older) t.amount
    else replay older

/-- The cached balance of the account `find_account` returns equals `replay` of its ledger
(the same float value; a NaN counts as equal to itself here). -/
def balance_consistent (head : List Account) (acc_no : Int) : Bool :=
  match find_account head acc_no with
  | none => false
  | some acc => decide (acc.balance = replay acc.top)

/-- A Deposit, Withdraw or Undo command addressed to account `acc_no`. -/
def addressed_to (acc_no : Int) : Cmd → Bool
  | Cmd.deposit n _ => decide (n = acc_no)
  | Cmd.withdraw n _ => decide (n = acc_no)
  | Cmd.undo n => decide (n = acc_no)
  | _ => false

/-- The reversal an Undo would perform on this ledger is exact in float arithmetic: with
`r` the replay of the entries below the top entry `(type, a)`, `(r + a) - a = r` for a
Deposit and `(r - a) + a = r` for a Withdraw.  True when there is nothing to undo. -/
def undo_exact : List Transaction → Bool
  | t :: u :: older =>
    let r := replay (u :: older)
    if t.type = "Deposit" then decide (F32.sub (F32.add r t.amount) t.amount = r)
    else if t.type = "Withdraw" then decide (F32.add (F32.sub r t.amount) t.amount = r)
    else true
  | _ => true

/-- Every Undo of the command sequence, run from `head`, is exact (see `undo_exact`). -/
def exact_undos : List Account → List Cmd → Bool
  | _, [] => true
  | head, c :: cs =>
    (match c with
      | Cmd.undo n =>
        (match find_account head n with
          | some acc => undo_exact acc.top
          | none => true)
      | _ => true) && exact_undos (exec head c) cs

/-- Shape of a ledger built by `add_account`, `deposit` and `withdraw`: non-empty, the
oldest entry is the Initial one, every entry above it is a Deposit or a Withdraw. -/
def ledger_ok : List Transaction → Bool
  | [] => false
  | [t] => decide (t.type = "Initial")
  | t :: u :: older =>
    (decide (t.type = "Deposit") || decide (t.type = "Withdraw")) && ledger_ok (u :: older)

/-- The account is consistent: cached balance is the replay of a well-shaped ledger. -/
def account_ok (acc : Account) : Prop :=
  acc.balance = replay acc.top ∧ ledger_ok acc.top = true

instance (acc : Account) : Decidable (account_ok acc) :=
  inferInstanceAs (Decidable (acc.balance = replay acc.top ∧ ledger_ok acc.top = true))

/-- Sample list: one account, opened with 100, holding 150 after a deposit of 50. -/
def alice_150 : List Account :=
  [⟨1, "Alice", F32.ofNat 150, [⟨"Deposit", F32.ofNat 50⟩, ⟨"Initial", F32.ofNat 100⟩]⟩]

/-- Sample list: one account opened with `n`, nothing else done. -/
def opened_with (n : Nat) : List Account :=
  (add_account [] 1 "A" (F32.ofNat n)).2

/-- Sample list: two accounts created with the same number 1. -/
def twice_one : List Account :=
  main_loop [] [Cmd.add 1 "Alice" (F32.ofNat 100), Cmd.add 1 "Bob" (F32.ofNat 5)]

/-- Number of nodes of the list that carry the number `acc_no`. -/
def count_id (head : List Account) (acc_no : Int) : Nat :=
  (head.filter fun p => decide (p.acc_no = acc_no)).length

/-- Example scenario, step 1: the list after `add_account` with (1, Alice, 100). -/
def scenario_1 : List Account := (add_account [] 1 "Alice" (F32.ofNat 100)).2

/-- Example scenario, step 2: after the deposit of 50. -/
def scenario_2 : List Account := (deposit scenario_1 1 (F32.ofNat 50)).2

/-- Example scenario, step 3: after the refused withdrawal of 200. -/
def scenario_3 : List Account := (withdraw scenario_2 1 (F32.ofNat 200)).2

/-- Example scenario, step 4: after the withdrawal of 50. -/
def scenario_4 : List Account := (withdraw scenario_3 1 (F32.ofNat 50)).2

/-- Example scenario, step 5: after the first undo. -/
def scenario_5 : List Account := (undo_transaction scenario_4 1).2

/-- Example scenario, step 6: after the second undo. -/
def scenario_6 : List Account := (undo_transaction scenario_5 1).2

/-- The reversal arithmetic of `undo_transaction`: the balance after undoing an entry
`(type, amt)` from balance `b`. -/
def undo_balance (type : String) (amt : F32) (b : F32) : F32 :=
  if type = "Deposit" then F32.sub b amt
  else if type = "Withdraw" then F32.add b amt
  else b

/-- The float is a finite number (neither an infinity nor a NaN). -/
def F32.finite : F32 → Bool
  | F32.fin _ _ _ => true
  | _ => false

/-- The amounts of the command satisfy the stated preconditions and are finite numbers:
an opening amount `>= 0`, a deposit or withdrawal amount `> 0`. -/
def valid_amounts : Cmd → Bool
  | Cmd.add _ _ amt => F32.finite amt && F32.le F32.zero amt
  | Cmd.deposit _ amt => F32.finite amt && F32.gt amt F32.zero
  | Cmd.withdraw _ amt => F32.finite amt && F32.gt amt F32.zero
  | _ => true

/-- Every stage of the ledger replays to a balance `>= 0`: the whole ledger and each
ledger obtained by removing entries from the top. -/
def ledger_nonneg : List Transaction → Bool
  | [] => true
  | t :: older => F32.le F32.zero (replay (t :: older)) && ledger_nonneg older

/-- Sample run with valid amounts that ends below zero: open with 0, deposit 16777216,
deposit 1, undo, undo. -/
def overdrawn_by_undo : List Cmd :=
  [Cmd.add 1 "A" F32.zero, Cmd.deposit 1 (F32.ofNat 16777216), Cmd.deposit 1 (F32.ofNat 1),
    Cmd.undo 1, Cmd.undo 1]

/-- Sample run with an infinite amount: open with 0, deposit infinity, withdraw infinity. -/
def infinite_amounts : List Cmd :=
  [Cmd.add 1 "A" F32.zero, Cmd.deposit 1 (F32.inf false), Cmd.withdraw 1 (F32.inf false)]

/-- A Deposit or Withdraw command addressed to account `acc_no`. -/
def deposit_or_withdraw (acc_no : Int) : Cmd → Bool
  | Cmd.deposit n _ => decide (n = acc_no)
  | Cmd.withdraw n _ => decide (n = acc_no)
  | _ => false

/-- Every withdrawal of the sequence, run from balance `b`, passes the funds test, so
that every command of the sequence succeeds. -/
def all_succeed (b : F32) : List Cmd → Bool
  | [] => true
  | Cmd.deposit _ a :: cs => all_succeed (F32.add b a) cs
  | Cmd.withdraw _ a :: cs => !F32.gt a b && all_succeed (F32.sub b a) cs
  | _ :: cs => all_succeed b cs

/-- The balance after running the deposits and withdrawals from balance `b` and then
reversing them, last command first, with the float operations of `undo_transaction`. -/
def round_trip_balance (b : F32) : List Cmd → F32
  | [] => b
  | Cmd.deposit _ a :: cs => F32.sub (round_trip_balance (F32.add b a) cs) a
  | Cmd.withdraw _ a :: cs => F32.add (round_trip_balance (F32.sub b a) cs) a
  | _ :: cs => round_trip_balance b cs

/-- `k` consecutive calls of `undo_transaction` for the number `acc_no`: what they print,
in the order printed, and the list afterwards. -/
def undo_n (head : List Account) (acc_no : Int) : Nat → List Output × List Account
  | 0 => ([], head)
  | k + 1 =>
    ((undo_n head acc_no k).1 ++ [(undo_transaction (undo_n head acc_no k).2 acc_no).1],
      (undo_transaction (undo_n head acc_no k).2 acc_no).2)

/-- The outputs expected from undoing the deposits and withdrawals run from balance `b`:
one "Undone" line per command, the last command first. -/
def undo_trace (b : F32) : List Cmd → List Output
  | [] => []
  | Cmd.deposit n a :: cs =>
    undo_trace (F32.add b a) cs
      ++ [Output.undone "Deposit" a (round_trip_balance b (Cmd.deposit n a :: cs))]
  | Cmd.withdraw n a :: cs =>
    undo_trace (F32.sub b a) cs
      ++ [Output.undone "Withdraw" a (round_trip_balance b (Cmd.withdraw n a :: cs))]
  | _ :: cs => undo_trace b cs

/-- The `(type, amount)` an output line reports as undone, if it is such a line. -/
def undone_entry : Output → Option (String × F32)
  | Output.undone type amt _ => some (type, amt)
  | _ => none

/-- The `(type, amount)` ledger entry a deposit or withdraw command pushes. -/
def pushed_entry : Cmd → Option (String × F32)
  | Cmd.deposit _ a => some ("Deposit", a)
  | Cmd.withdraw _ a => some ("Withdraw", a)
  | _ => none

/-- The exact value of a float that is an integer; `none` for a float that is not
(a fraction, an infinity, a NaN). -/
def F32.toInt? : F32 → Option Int
  | F32.fin s m e =>
    if 0 ≤ e then some (F32.signed s (m * 2 ^ e.toNat))
    else if m % 2 ^ (-e).toNat = 0 then some (F32.signed s (m / 2 ^ (-e).toNat))
    else none
  | _ => none

/-- Sample list, reachable: one account opened with 16777218, then a withdrawal of 1,
which stores 16777216. -/
def rounded_withdrawal : List Account :=
  main_loop [] [Cmd.add 1 "A" (F32.ofNat 16777218), Cmd.withdraw 1 (F32.ofNat 1)]

/-! ## Lemmas on lookup and write-back -/

theorem find_account_acc_no {head : List Account} {acc_no : Int} {acc : Account}
    (h : find_account head acc_no = some acc) : acc.acc_no = acc_no := by
  induction head with
  | nil => simp [find_account] at h
  | cons p next ih =>
    by_cases hp : p.acc_no = acc_no
    · simp [find_account, hp] at h
      rw [← h]; exact hp
    · simp [find_account, hp] at h
      exact ih h

theorem find_write_account {head : List Account} {acc_no : Int} {acc : Account}
    (new : Account) (h : find_account head acc_no = some acc) (hn : new.acc_no = acc_no) :
    find_account (write_account head acc_no new) acc_no = some new := by
  induction head with
  | nil => simp [find_account] at h
  | cons p next ih =>
    by_cases hp : p.acc_no = acc_no
    · simp [write_account, find_account, hp, hn]
    · simp [find_account, hp] at h
      simp [write_account, find_account, hp, ih h]

theorem write_account_self {head : List Account} {acc_no : Int} {acc : Account}
    (h : find_account head acc_no = some acc) : write_account head acc_no acc = head := by
  induction head with
  | nil => rfl
  | cons p next ih =>
    by_cases hp : p.acc_no = acc_no
    · simp [find_account, hp] at h
      subst h
      simp [write_account, hp]
    · simp [find_account, hp] at h
      simp [write_account, hp, ih h]

theorem write_account_write_account (head : List Account) (acc_no : Int) (a b : Account)
    (ha : a.acc_no = acc_no) :
    write_account (write_account head acc_no a) acc_no b = write_account head acc_no b := by
  induction head with
  | nil => rfl
  | cons p next ih =>
    by_cases hp : p.acc_no = acc_no
    · simp [write_account, hp, ha]
    · simp [write_account, hp, ih]

theorem F32.gt_eq_false_of_le {a b : F32} (h : F32.le a b = true) : F32.gt a b = false := by
  match a, b with
  | F32.nan, _ => simp [F32.gt]
  | F32.inf _, F32.nan => simp [F32.gt]
  | F32.fin _ _ _, F32.nan => simp [F32.gt]
  | F32.inf s, F32.inf t => cases s <;> cases t <;> simp_all [F32.le, F32.gt]
  | F32.inf s, F32.fin _ _ _ => cases s <;> simp_all [F32.le, F32.gt]
  | F32.fin _ _ _, F32.inf t => cases t <;> simp_all [F32.le, F32.gt]
  | F32.fin _ _ _, F32.fin _ _ _ => simpa [F32.le, F32.gt] using h

/-! ## Withdraw beyond the balance -/

/-- C2 (no overdraft): when `find_account` finds the account and `amt > balance`,
`withdraw` prints "Insufficient funds." and leaves the whole list, hence the balance and
the ledger of the account, as they were. -/
theorem withdraw_insufficient_funds (head : List Account) (acc_no : Int) (amt : F32)
    (acc : Account) (hfind : find_account head acc_no = some acc)
    (hgt : F32.gt amt acc.balance = true) :
    withdraw head acc_no amt = (Output.insufficientFunds, head) ∧
      find_account (withdraw head acc_no amt).2 acc_no = some acc := by
  have h : withdraw head acc_no amt = (Output.insufficientFunds, head) := by
    simp [withdraw, hfind, hgt]
  exact ⟨h, by rw [h]; exact hfind⟩

/-- C2, evaluated: withdrawing 200 from an account holding 150. -/
theorem withdraw_insufficient_funds_witness :
    withdraw [⟨1, "Alice", F32.ofNat 150,
        [⟨"Deposit", F32.ofNat 50⟩, ⟨"Initial", F32.ofNat 100⟩]⟩] 1 (F32.ofNat 200)
      = (Output.insufficientFunds, [⟨1, "Alice", F32.ofNat 150,
        [⟨"Deposit", F32.ofNat 50⟩, ⟨"Initial", F32.ofNat 100⟩]⟩]) ∧
    find_account (withdraw [⟨1, "Alice", F32.ofNat 150,
        [⟨"Deposit", F32.ofNat 50⟩, ⟨"Initial", F32.ofNat 100⟩]⟩] 1 (F32.ofNat 200)).2 1
      = some ⟨1, "Alice", F32.ofNat 150,
        [⟨"Deposit", F32.ofNat 50⟩, ⟨"Initial", F32.ofNat 100⟩]⟩ :=
  withdraw_insufficient_funds _ 1 (F32.ofNat 200) _ (by decide) (by decide)

/-! ## Undo on the opening entry -/

/-- C4 (Initial is permanent): when the ledger of the account holds a single entry,
`undo_transaction` prints "Nothing to undo" and leaves the whole list, hence the balance
and the one-entry ledger, as they were. -/
theorem undo_only_opening_entry (head : List Account) (acc_no : Int) (acc : Account)
    (t : Transaction) (hfind : find_account head acc_no = some acc) (htop : acc.top = [t]) :
    undo_transaction head acc_no = (Output.nothingToUndo, head) ∧
      find_account (undo_transaction head acc_no).2 acc_no = some acc ∧
      acc.top.length = 1 := by
  have h : undo_transaction head acc_no = (Output.nothingToUndo, head) := by
    simp [undo_transaction, hfind, htop, has_second]
  exact ⟨h, by rw [h]; exact hfind, by simp [htop]⟩

/-- C4, evaluated on a freshly created account. -/
theorem undo_only_opening_entry_witness :
    undo_transaction (add_account [] 1 "Alice" (F32.ofNat 100)).2 1
      = (Output.nothingToUndo, (add_account [] 1 "Alice" (F32.ofNat 100)).2) ∧
    find_account (undo_transaction (add_account [] 1 "Alice" (F32.ofNat 100)).2 1).2 1
      = some ⟨1, "Alice", F32.ofNat 100, [⟨"Initial", F32.ofNat 100⟩]⟩ ∧
    (Account.mk 1 "Alice" (F32.ofNat 100) [⟨"Initial", F32.ofNat 100⟩]).top.length = 1 :=
  undo_only_opening_entry _ 1 ⟨1, "Alice", F32.ofNat 100, [⟨"Initial", F32.ofNat 100⟩]⟩
    ⟨"Initial", F32.ofNat 100⟩ (by decide) rfl

/-! ## Balance consistency -/

theorem ledger_ok_ne_nil {top : List Transaction} (h : ledger_ok top = true) : top ≠ [] := by
  intro h0
  subst h0
  simp [ledger_ok] at h

theorem replay_deposit {t : Transaction} {older : List Transaction}
    (h : t.type = "Deposit") : replay (t :: older) = F32.add (replay older) t.amount := by
  rw [replay, h, if_neg (by decide), if_pos rfl]

theorem replay_withdraw {t : Transaction} {older : List Transaction}
    (h : t.type = "Withdraw") : replay (t :: older) = F32.sub (replay older) t.amount := by
  rw [replay, h, if_neg (by decide), if_neg (by decide), if_pos rfl]

theorem account_ok_add (acc_no : Int) (name : String) (amt : F32) :
    account_ok { acc_no := acc_no, name := name, balance := amt,
                 top := push_trans [] "Initial" amt } := by
  simp [account_ok, push_trans, replay, ledger_ok]

theorem account_ok_deposit {acc : Account} (h : account_ok acc) (amt : F32) :
    account_ok { acc with balance := F32.add acc.balance amt,
                          top := push_trans acc.top "Deposit" amt } := by
  obtain ⟨hb, hl⟩ := h
  cases htop : acc.top with
  | nil => rw [htop] at hl; simp [ledger_ok] at hl
  | cons u older =>
    rw [htop] at hl hb
    refine ⟨?_, ?_⟩
    · simp [push_trans, replay, hb]
    · simp [push_trans, ledger_ok, hl]

theorem account_ok_withdraw {acc : Account} (h : account_ok acc) (amt : F32) :
    account_ok { acc with balance := F32.sub acc.balance amt,
                          top := push_trans acc.top "Withdraw" amt } := by
  obtain ⟨hb, hl⟩ := h
  cases htop : acc.top with
  | nil => rw [htop] at hl; simp [ledger_ok] at hl
  | cons u older =>
    rw [htop] at hl hb
    refine ⟨?_, ?_⟩
    · simp [push_trans, replay, hb]
    · simp [push_trans, ledger_ok, hl]

theorem account_ok_undo {acc : Account} (h : account_ok acc) (hs : has_second acc.top = true)
    (hx : undo_exact acc.top = true) :
    account_ok { acc with
      balance :=
        if (pop_trans acc.top "").2.1 = "Deposit" then
          F32.sub acc.balance (pop_trans acc.top "").1
        else if (pop_trans acc.top "").2.1 = "Withdraw" then
          F32.add acc.balance (pop_trans acc.top "").1
        else acc.balance,
      top := (pop_trans acc.top "").2.2 } := by
  obtain ⟨hb, hl⟩ := h
  match htop : acc.top with
  | [] => rw [htop] at hs; simp [has_second] at hs
  | [_] => rw [htop] at hs; simp [has_second] at hs
  | t :: u :: older =>
    rw [htop] at hl hb hx
    simp only [ledger_ok, Bool.and_eq_true, Bool.or_eq_true, decide_eq_true_eq] at hl
    obtain ⟨hty, hrest⟩ := hl
    refine ⟨?_, ?_⟩
    · rcases hty with hd | hw
      · simp only [undo_exact, hd, if_true, decide_eq_true_eq] at hx
        simp only [pop_trans, hd, if_true]
        rw [hb, replay_deposit hd]
        exact hx
      · simp only [undo_exact, hw, if_true, decide_eq_true_eq] at hx
        rw [if_neg (by decide)] at hx
        simp only [pop_trans, hw, if_true]
        rw [if_neg (by decide), hb, replay_withdraw hw]
        exact of_decide_eq_true hx
    · simpa [pop_trans] using hrest

theorem exec_keeps_account_ok {head : List Account} {acc_no : Int} {acc : Account} (c : Cmd)
    (hfind : find_account head acc_no = some acc) (hok : account_ok acc)
    (haddr : addressed_to acc_no c = true)
    (hx : exact_undos head [c] = true) :
    ∃ acc1, find_account (exec head c) acc_no = some acc1 ∧ account_ok acc1 := by
  have hno := find_account_acc_no hfind
  cases c with
  | add n nm a => simp [addressed_to] at haddr
  | showAll => simp [addressed_to] at haddr
  | showTrans n => simp [addressed_to] at haddr
  | delete n => simp [addressed_to] at haddr
  | deposit n a =>
    simp only [addressed_to, decide_eq_true_eq] at haddr
    subst haddr
    refine ⟨_, ?_, account_ok_deposit hok a⟩
    simp only [exec, deposit, hfind]
    exact find_write_account _ hfind hno
  | withdraw n a =>
    simp only [addressed_to, decide_eq_true_eq] at haddr
    subst haddr
    by_cases hg : F32.gt a acc.balance = true
    · exact ⟨acc, by simp [exec, withdraw, hfind, hg], hok⟩
    · refine ⟨_, ?_, account_ok_withdraw hok a⟩
      simp only [exec, withdraw, hfind, hg]
      exact find_write_account _ hfind hno
  | undo n =>
    simp only [addressed_to, decide_eq_true_eq] at haddr
    subst haddr
    by_cases hs : has_second acc.top = true
    · have hx1 : undo_exact acc.top = true := by
        simpa [exact_undos, hfind] using hx
      refine ⟨_, ?_, account_ok_undo hok hs hx1⟩
      simp only [exec, undo_transaction, hfind, hs, if_true]
      exact find_write_account _ hfind hno
    · exact ⟨acc, by simp [exec, undo_transaction, hfind, hs], hok⟩

theorem main_loop_keeps_account_ok (cmds : List Cmd) :
    ∀ (head : List Account) (acc_no : Int) (acc : Account),
      find_account head acc_no = some acc → account_ok acc →
      cmds.all (addressed_to acc_no) = true → exact_undos head cmds = true →
      ∃ acc1, find_account (main_loop head cmds) acc_no = some acc1 ∧ account_ok acc1 := by
  induction cmds with
  | nil => intro head acc_no acc hfind hok _ _; exact ⟨acc, hfind, hok⟩
  | cons c cs ih =>
    intro head acc_no acc hfind hok haddr hx
    simp only [List.all_cons, Bool.and_eq_true] at haddr
    have hx2 : exact_undos head [c] = true ∧ exact_undos (exec head c) cs = true := by
      simp only [exact_undos, Bool.and_eq_true, Bool.and_true] at hx ⊢
      exact hx
    obtain ⟨acc1, hf1, hok1⟩ := exec_keeps_account_ok c hfind hok haddr.1 hx2.1
    exact ih (exec head c) acc_no acc1 hf1 hok1 haddr.2 hx2.2

theorem exact_undos_take (cmds : List Cmd) :
    ∀ (head : List Account) (k : Nat), exact_undos head cmds = true →
      exact_undos head (cmds.take k) = true := by
  induction cmds with
  | nil => intro head k h; simpa using h
  | cons c cs ih =>
    intro head k h
    cases k with
    | zero => simp [exact_undos]
    | succ k =>
      simp only [exact_undos, Bool.and_eq_true, List.take_succ_cons] at h ⊢
      exact ⟨h.1, ih _ k h.2⟩

theorem all_take {α : Type} (p : α → Bool) (l : List α) (k : Nat) (h : l.all p = true) :
    (l.take k).all p = true := by
  rw [List.all_eq_true] at h ⊢
  intro x hx
  exact h x (List.mem_of_mem_take hx)

/-- C1 (balance consistency, amended to exact undos): start from any list, create an
account with `add_account`, then run Deposit / Withdraw / Undo commands addressed to it.
If every Undo of the sequence is exact in float arithmetic (`exact_undos`; sequences
without Undo always qualify), then after each command, that is after every prefix
`cmds.take k`, the cached balance equals `replay` of the ledger. -/
theorem balance_consistent_of_exact_undos (head : List Account) (acc_no : Int)
    (name : String) (amt : F32) (cmds : List Cmd) (k : Nat)
    (haddr : cmds.all (addressed_to acc_no) = true)
    (hexact : exact_undos (add_account head acc_no name amt).2 cmds = true) :
    balance_consistent
      (main_loop (add_account head acc_no name amt).2 (cmds.take k)) acc_no = true := by
  have hfind : find_account (add_account head acc_no name amt).2 acc_no
      = some { acc_no := acc_no, name := name, balance := amt,
               top := push_trans [] "Initial" amt } := by
    simp [add_account, find_account]
  obtain ⟨acc1, hf1, hok1⟩ :=
    main_loop_keeps_account_ok (cmds.take k) _ acc_no _ hfind (account_ok_add acc_no name amt)
      (all_take _ cmds k haddr) (exact_undos_take cmds _ k hexact)
  simp [balance_consistent, hf1, hok1.1]

/-- C1, evaluated: open with 100, deposit 50, refused withdrawal of 200, withdraw 50,
then three undos; consistency after all six commands. -/
theorem balance_consistent_of_exact_undos_witness :
    balance_consistent
      (main_loop (add_account [] 1 "Alice" (F32.ofNat 100)).2
        ([Cmd.deposit 1 (F32.ofNat 50), Cmd.withdraw 1 (F32.ofNat 200),
          Cmd.withdraw 1 (F32.ofNat 50), Cmd.undo 1, Cmd.undo 1, Cmd.undo 1].take 6)) 1
      = true :=
  balance_consistent_of_exact_undos [] 1 "Alice" (F32.ofNat 100)
    [Cmd.deposit 1 (F32.ofNat 50), Cmd.withdraw 1 (F32.ofNat 200),
      Cmd.withdraw 1 (F32.ofNat 50), Cmd.undo 1, Cmd.undo 1, Cmd.undo 1] 6
    (by decide) (by decide)

/-- C1 as stated fails: open with 16777216 (2^24), deposit 1, undo.  The deposit rounds
16777217 back to 16777216, the undo subtracts 1 exactly, so the cached balance is
16777215 while the ledger, holding only the Initial entry, replays to 16777216. -/
theorem balance_consistency_counterexample :
    [Cmd.deposit 1 (F32.ofNat 1), Cmd.undo 1].all (addressed_to 1) = true ∧
    find_account
      (main_loop (add_account [] 1 "A" (F32.ofNat 16777216)).2
        [Cmd.deposit 1 (F32.ofNat 1), Cmd.undo 1]) 1
      = some ⟨1, "A", F32.ofNat 16777215, [⟨"Initial", F32.ofNat 16777216⟩]⟩ ∧
    replay [⟨"Initial", F32.ofNat 16777216⟩] = F32.ofNat 16777216 ∧
    F32.ofNat 16777215 ≠ F32.ofNat 16777216 ∧
    balance_consistent
      (main_loop (add_account [] 1 "A" (F32.ofNat 16777216)).2
        [Cmd.deposit 1 (F32.ofNat 1), Cmd.undo 1]) 1 = false := by
  decide

/-! ## Undo directly after a deposit or a withdrawal -/

theorem has_second_push {top : List Transaction} (h : top ≠ []) (type : String) (amt : F32) :
    has_second (push_trans top type amt) = true := by
  cases top with
  | nil => exact absurd rfl h
  | cons u older => rfl

/-- C3 (undo inverts the last operation, amended to float arithmetic): for an account
with a non-empty ledger (every account made by `add_account` has one), Undo directly
after Deposit(a) removes exactly the entry just pushed, so the ledger is the one before
the deposit, and leaves the balance `(b + a) - a` computed in floats; when that equals
`b` the whole list is as before the deposit.  Likewise Undo directly after a successful
Withdraw(a) restores the ledger and leaves the balance `(b - a) + a`. -/
theorem undo_after_deposit_or_withdraw (head : List Account) (acc_no : Int) (amt : F32)
    (acc : Account) (hfind : find_account head acc_no = some acc) (hne : acc.top ≠ []) :
    (undo_transaction (deposit head acc_no amt).2 acc_no
        = (Output.undone "Deposit" amt (F32.sub (F32.add acc.balance amt) amt),
           write_account head acc_no
             { acc with balance := F32.sub (F32.add acc.balance amt) amt }) ∧
      find_account (undo_transaction (deposit head acc_no amt).2 acc_no).2 acc_no
        = some { acc with balance := F32.sub (F32.add acc.balance amt) amt } ∧
      (F32.sub (F32.add acc.balance amt) amt = acc.balance →
        (undo_transaction (deposit head acc_no amt).2 acc_no).2 = head)) ∧
    (F32.gt amt acc.balance = false →
      undo_transaction (withdraw head acc_no amt).2 acc_no
        = (Output.undone "Withdraw" amt (F32.add (F32.sub acc.balance amt) amt),
           write_account head acc_no
             { acc with balance := F32.add (F32.sub acc.balance amt) amt }) ∧
      find_account (undo_transaction (withdraw head acc_no amt).2 acc_no).2 acc_no
        = some { acc with balance := F32.add (F32.sub acc.balance amt) amt } ∧
      (F32.add (F32.sub acc.balance amt) amt = acc.balance →
        (undo_transaction (withdraw head acc_no amt).2 acc_no).2 = head)) := by
  have hno := find_account_acc_no hfind
  have hd : undo_transaction (deposit head acc_no amt).2 acc_no
        = (Output.undone "Deposit" amt (F32.sub (F32.add acc.balance amt) amt),
           write_account head acc_no
             { acc with balance := F32.sub (F32.add acc.balance amt) amt }) := by
    have h1 := find_write_account
      { acc with balance := F32.add acc.balance amt, top := push_trans acc.top "Deposit" amt }
      hfind hno
    simp only [deposit, hfind, undo_transaction, h1, has_second_push hne, if_true]
    rw [write_account_write_account]
    · simp [pop_trans, push_trans]
    · exact hno
  have hw : F32.gt amt acc.balance = false →
      undo_transaction (withdraw head acc_no amt).2 acc_no
        = (Output.undone "Withdraw" amt (F32.add (F32.sub acc.balance amt) amt),
           write_account head acc_no
             { acc with balance := F32.add (F32.sub acc.balance amt) amt }) := by
    intro hg
    have h1 := find_write_account
      { acc with balance := F32.sub acc.balance amt, top := push_trans acc.top "Withdraw" amt }
      hfind hno
    simp only [withdraw, hfind, hg, Bool.false_eq_true, if_false, undo_transaction, h1,
      has_second_push hne, if_true]
    rw [write_account_write_account]
    · simp [pop_trans, push_trans]
    · exact hno
  refine ⟨⟨hd, ?_, ?_⟩, fun hg => ⟨hw hg, ?_, ?_⟩⟩
  · rw [hd]; exact find_write_account _ hfind hno
  · intro hex
    rw [hd, hex]
    exact write_account_self hfind
  · rw [hw hg]; exact find_write_account _ hfind hno
  · intro hex
    rw [hw hg, hex]
    exact write_account_self hfind

/-- C3, evaluated where the float round trips are exact (balance 150, amount 50): the
whole list is restored after Deposit + Undo and after Withdraw + Undo. -/
theorem undo_after_deposit_or_withdraw_witness :
    (undo_transaction (deposit alice_150 1 (F32.ofNat 50)).2 1).2 = alice_150 ∧
    (undo_transaction (withdraw alice_150 1 (F32.ofNat 50)).2 1).2 = alice_150 :=
  ⟨(undo_after_deposit_or_withdraw alice_150 1 (F32.ofNat 50)
      ⟨1, "Alice", F32.ofNat 150, [⟨"Deposit", F32.ofNat 50⟩, ⟨"Initial", F32.ofNat 100⟩]⟩
      (by decide) (by decide)).1.2.2 (by decide),
   ((undo_after_deposit_or_withdraw alice_150 1 (F32.ofNat 50)
      ⟨1, "Alice", F32.ofNat 150, [⟨"Deposit", F32.ofNat 50⟩, ⟨"Initial", F32.ofNat 100⟩]⟩
      (by decide) (by decide)).2 (by decide)).2.2 (by decide)⟩

/-- C3 as stated fails.  Balance 16777216, Deposit 1 (prints 16777216), Undo: the
balance is 16777215.  Balance 16777218, Withdraw 1 (prints 16777216), Undo: the balance
is 16777216.  In both runs the ledger is back to the single Initial entry, the balance
is not the prior one. -/
theorem undo_restores_balance_counterexample :
    (deposit (opened_with 16777216) 1 (F32.ofNat 1)).1
      = Output.depositSuccessful (F32.ofNat 16777216) ∧
    find_account (undo_transaction (deposit (opened_with 16777216) 1 (F32.ofNat 1)).2 1).2 1
      = some ⟨1, "A", F32.ofNat 16777215, [⟨"Initial", F32.ofNat 16777216⟩]⟩ ∧
    F32.ofNat 16777215 ≠ F32.ofNat 16777216 ∧
    (withdraw (opened_with 16777218) 1 (F32.ofNat 1)).1
      = Output.withdrawalSuccessful (F32.ofNat 16777216) ∧
    find_account (undo_transaction (withdraw (opened_with 16777218) 1 (F32.ofNat 1)).2 1).2 1
      = some ⟨1, "A", F32.ofNat 16777216, [⟨"Initial", F32.ofNat 16777218⟩]⟩ ∧
    F32.ofNat 16777216 ≠ F32.ofNat 16777218 := by
  decide

/-! ## Deleting an account -/

theorem find_account_eq_none_of_count_id {head : List Account} {acc_no : Int}
    (h : count_id head acc_no = 0) : find_account head acc_no = none := by
  induction head with
  | nil => rfl
  | cons p next ih =>
    by_cases hp : p.acc_no = acc_no
    · simp [count_id, hp] at h
    · simp only [count_id, List.filter_cons, hp, decide_False] at h
      simp [find_account, hp, ih h]

theorem find_account_delete_account {head : List Account} {acc_no : Int}
    (h : count_id head acc_no ≤ 1) :
    find_account (delete_account head acc_no).2 acc_no = none := by
  induction head with
  | nil => rfl
  | cons p next ih =>
    by_cases hp : p.acc_no = acc_no
    · have h0 : count_id next acc_no = 0 := by
        simp only [count_id, List.filter_cons, hp, decide_True, if_true,
          List.length_cons] at h
        simp only [count_id]
        omega
      simp [delete_account, hp, find_account_eq_none_of_count_id h0]
    · have h1 : count_id next acc_no ≤ 1 := by
        simpa [count_id, hp] using h
      simp [delete_account, find_account, hp, ih h1]

/-- C5 (delete is total, amended to lists where at most one account carries the number):
if at most one node of the list has number `id` and `delete_account` prints "Account
deleted.", then afterwards `find_account id` returns NULL and `show_transactions id`
prints "No such account.". -/
theorem find_after_delete (head : List Account) (acc_no : Int)
    (huniq : count_id head acc_no ≤ 1)
    (_hdel : (delete_account head acc_no).1 = Output.accountDeleted) :
    find_account (delete_account head acc_no).2 acc_no = none ∧
      show_transactions (delete_account head acc_no).2 acc_no = none := by
  have h := find_account_delete_account huniq
  exact ⟨h, by simp [show_transactions, h]⟩

/-- C5, evaluated: deleting the only account of a list. -/
theorem find_after_delete_witness :
    find_account (delete_account alice_150 1).2 1 = none ∧
      show_transactions (delete_account alice_150 1).2 1 = none :=
  find_after_delete alice_150 1 (by decide) (by decide)

/-- C5 as stated fails on a reachable list: after two `add_account` with number 1, one
`delete_account 1` reports the deletion and number 1 is still found, with a history. -/
theorem find_after_delete_counterexample :
    twice_one = main_loop []
      [Cmd.add 1 "Alice" (F32.ofNat 100), Cmd.add 1 "Bob" (F32.ofNat 5)] ∧
    (delete_account twice_one 1).1 = Output.accountDeleted ∧
    find_account (delete_account twice_one 1).2 1
      = some ⟨1, "Alice", F32.ofNat 100, [⟨"Initial", F32.ofNat 100⟩]⟩ ∧
    show_transactions (delete_account twice_one 1).2 1
      = some ("Alice", [("Initial", F32.ofNat 100)]) := by
  decide

/-! ## Creating an account under a number already in use -/

/-- C6 (duplicate ids, amended to what `add_account` does): also when the list already
holds an account with the given number, `add_account` prints "Account added.", links the
new account in front of the unchanged old list, so that one more node carries the
number and `find_account` now returns the new account. -/
theorem add_account_existing_id (head : List Account) (acc_no : Int) (name : String)
    (amt : F32) (old : Account) (_hex : find_account head acc_no = some old) :
    add_account head acc_no name amt
        = (Output.accountAdded,
           { acc_no := acc_no, name := name, balance := amt,
             top := [{ type := "Initial", amount := amt }] } :: head) ∧
      count_id (add_account head acc_no name amt).2 acc_no = count_id head acc_no + 1 ∧
      find_account (add_account head acc_no name amt).2 acc_no
        = some { acc_no := acc_no, name := name, balance := amt,
                 top := [{ type := "Initial", amount := amt }] } := by
  refine ⟨rfl, ?_, ?_⟩
  · simp [add_account, count_id]
  · simp [add_account, find_account, push_trans]

/-- C6, evaluated: a second account under number 1. -/
theorem add_account_existing_id_witness :
    add_account alice_150 1 "Bob" (F32.ofNat 5)
        = (Output.accountAdded,
           { acc_no := 1, name := "Bob", balance := F32.ofNat 5,
             top := [{ type := "Initial", amount := F32.ofNat 5 }] } :: alice_150) ∧
      count_id (add_account alice_150 1 "Bob" (F32.ofNat 5)).2 1 = count_id alice_150 1 + 1 ∧
      find_account (add_account alice_150 1 "Bob" (F32.ofNat 5)).2 1
        = some { acc_no := 1, name := "Bob", balance := F32.ofNat 5,
                 top := [{ type := "Initial", amount := F32.ofNat 5 }] } :=
  add_account_existing_id alice_150 1 "Bob" (F32.ofNat 5)
    ⟨1, "Alice", F32.ofNat 150, [⟨"Deposit", F32.ofNat 50⟩, ⟨"Initial", F32.ofNat 100⟩]⟩
    (by decide)

/-- C6 as stated fails: the list holds number 1, `add_account` with number 1 reports
success, the list is changed, and two accounts of the reachable list `twice_one` carry
the number 1. -/
theorem add_account_duplicate_counterexample :
    find_account alice_150 1 ≠ none ∧
    (add_account alice_150 1 "Bob" (F32.ofNat 5)).1 = Output.accountAdded ∧
    (add_account alice_150 1 "Bob" (F32.ofNat 5)).2 ≠ alice_150 ∧
    count_id twice_one 1 = 2 ∧
    ¬ (twice_one.map Account.acc_no).Nodup := by
  decide

/-! ## Postconditions of deposit, withdraw and undo -/

theorem deposit_eq {head : List Account} {acc_no : Int} {acc : Account} (amt : F32)
    (hfind : find_account head acc_no = some acc) :
    deposit head acc_no amt
      = (Output.depositSuccessful (F32.add acc.balance amt),
         write_account head acc_no
           { acc with balance := F32.add acc.balance amt,
                      top := { type := "Deposit", amount := amt } :: acc.top }) := by
  simp [deposit, hfind, push_trans]

theorem withdraw_eq {head : List Account} {acc_no : Int} {acc : Account} (amt : F32)
    (hfind : find_account head acc_no = some acc) (hg : F32.gt amt acc.balance = false) :
    withdraw head acc_no amt
      = (Output.withdrawalSuccessful (F32.sub acc.balance amt),
         write_account head acc_no
           { acc with balance := F32.sub acc.balance amt,
                      top := { type := "Withdraw", amount := amt } :: acc.top }) := by
  simp [withdraw, hfind, hg, push_trans]

/-- C7 (non-positive amounts, amended to what the code does): the code has no amount
check.  For an existing account and an amount `<= 0`, `deposit` succeeds, stores and
prints `balance + amt` and pushes `(Deposit, amt)`; `withdraw` treats the amount like any
other: "Insufficient funds." and no change when `amt > balance`, otherwise it stores and
prints `balance - amt` and pushes `(Withdraw, amt)`. -/
theorem nonpositive_amounts_processed (head : List Account) (acc_no : Int) (amt : F32)
    (acc : Account) (hfind : find_account head acc_no = some acc)
    (_hle : F32.le amt F32.zero = true) :
    deposit head acc_no amt
        = (Output.depositSuccessful (F32.add acc.balance amt),
           write_account head acc_no
             { acc with balance := F32.add acc.balance amt,
                        top := { type := "Deposit", amount := amt } :: acc.top }) ∧
      (F32.gt amt acc.balance = true →
        withdraw head acc_no amt = (Output.insufficientFunds, head)) ∧
      (F32.gt amt acc.balance = false →
        withdraw head acc_no amt
          = (Output.withdrawalSuccessful (F32.sub acc.balance amt),
             write_account head acc_no
               { acc with balance := F32.sub acc.balance amt,
                          top := { type := "Withdraw", amount := amt } :: acc.top })) :=
  ⟨deposit_eq amt hfind, fun hg => by simp [withdraw, hfind, hg],
    fun hg => withdraw_eq amt hfind hg⟩

/-- C7, evaluated: depositing -5 and withdrawing -5 on a balance of 150. -/
theorem nonpositive_amounts_processed_witness :
    F32.le (F32.ofNegNat 5) F32.zero = true ∧
    deposit alice_150 1 (F32.ofNegNat 5)
      = (Output.depositSuccessful (F32.ofNat 145),
         [⟨1, "Alice", F32.ofNat 145, [⟨"Deposit", F32.ofNegNat 5⟩,
           ⟨"Deposit", F32.ofNat 50⟩, ⟨"Initial", F32.ofNat 100⟩]⟩]) ∧
    withdraw alice_150 1 (F32.ofNegNat 5)
      = (Output.withdrawalSuccessful (F32.ofNat 155),
         [⟨1, "Alice", F32.ofNat 155, [⟨"Withdraw", F32.ofNegNat 5⟩,
           ⟨"Deposit", F32.ofNat 50⟩, ⟨"Initial", F32.ofNat 100⟩]⟩]) :=
  ⟨by decide,
   (nonpositive_amounts_processed alice_150 1 (F32.ofNegNat 5)
      ⟨1, "Alice", F32.ofNat 150, [⟨"Deposit", F32.ofNat 50⟩, ⟨"Initial", F32.ofNat 100⟩]⟩
      (by decide) (by decide)).1.trans (by decide),
   ((nonpositive_amounts_processed alice_150 1 (F32.ofNegNat 5)
      ⟨1, "Alice", F32.ofNat 150, [⟨"Deposit", F32.ofNat 50⟩, ⟨"Initial", F32.ofNat 100⟩]⟩
      (by decide) (by decide)).2.2 (by decide)).trans (by decide)⟩

/-- C7 as stated fails: amounts -5 and 0 are `<= 0`, and Deposit(1, -5), Deposit(1, 0)
and Withdraw(1, -5) on a balance of 150 all report success and change the account. -/
theorem nonpositive_amounts_counterexample :
    F32.le (F32.ofNegNat 5) F32.zero = true ∧ F32.le F32.zero F32.zero = true ∧
    (deposit alice_150 1 (F32.ofNegNat 5)).1 = Output.depositSuccessful (F32.ofNat 145) ∧
    (deposit alice_150 1 (F32.ofNegNat 5)).2 ≠ alice_150 ∧
    (deposit alice_150 1 F32.zero).1 = Output.depositSuccessful (F32.ofNat 150) ∧
    (deposit alice_150 1 F32.zero).2 ≠ alice_150 ∧
    (withdraw alice_150 1 (F32.ofNegNat 5)).1 = Output.withdrawalSuccessful (F32.ofNat 155) ∧
    (withdraw alice_150 1 (F32.ofNegNat 5)).2 ≠ alice_150 :=
  ⟨by decide, by decide, by decide, by decide, by decide, by decide, by decide, by decide⟩

/-- C8 (withdraw postcondition, amended to float arithmetic): for an existing account
with balance `b` and ledger `L` and an amount `a` with `0 < a <= b`, `withdraw` succeeds,
prints and stores the single-precision difference `F32.sub b a`, that is `b - a` rounded
to the nearest float, and the ledger becomes `(Withdraw, a)` on top of `L`. -/
theorem withdraw_postcondition (head : List Account) (acc_no : Int) (amt : F32)
    (acc : Account) (hfind : find_account head acc_no = some acc)
    (_hpos : F32.gt amt F32.zero = true) (hle : F32.le amt acc.balance = true) :
    (withdraw head acc_no amt).1 = Output.withdrawalSuccessful (F32.sub acc.balance amt) ∧
      find_account (withdraw head acc_no amt).2 acc_no
        = some { acc with balance := F32.sub acc.balance amt,
                          top := { type := "Withdraw", amount := amt } :: acc.top } := by
  have hno := find_account_acc_no hfind
  rw [withdraw_eq amt hfind (F32.gt_eq_false_of_le hle)]
  exact ⟨rfl, find_write_account _ hfind hno⟩

/-- C8, evaluated at the boundary `a = b`: withdrawing 150 from 150 leaves 0. -/
theorem withdraw_postcondition_witness :
    (withdraw alice_150 1 (F32.ofNat 150)).1 = Output.withdrawalSuccessful F32.zero ∧
    find_account (withdraw alice_150 1 (F32.ofNat 150)).2 1
      = some ⟨1, "Alice", F32.zero, [⟨"Withdraw", F32.ofNat 150⟩,
          ⟨"Deposit", F32.ofNat 50⟩, ⟨"Initial", F32.ofNat 100⟩]⟩ :=
  ⟨(withdraw_postcondition alice_150 1 (F32.ofNat 150)
      ⟨1, "Alice", F32.ofNat 150, [⟨"Deposit", F32.ofNat 50⟩, ⟨"Initial", F32.ofNat 100⟩]⟩
      (by decide) (by decide) (by decide)).1.trans (by decide),
   (withdraw_postcondition alice_150 1 (F32.ofNat 150)
      ⟨1, "Alice", F32.ofNat 150, [⟨"Deposit", F32.ofNat 50⟩, ⟨"Initial", F32.ofNat 100⟩]⟩
      (by decide) (by decide) (by decide)).2.trans (by decide)⟩

/-- C8 as stated fails: balance 16777218, amount 1, so `0 < a <= b`.  The withdrawal
succeeds, prints and stores 16777216, and pushes `(Withdraw, 1)`; the difference
`b - a` is 16777217, which no float represents. -/
theorem withdraw_postcondition_counterexample :
    F32.gt (F32.ofNat 1) F32.zero = true ∧
    F32.le (F32.ofNat 1) (F32.ofNat 16777218) = true ∧
    withdraw (opened_with 16777218) 1 (F32.ofNat 1)
      = (Output.withdrawalSuccessful (F32.ofNat 16777216),
         [⟨1, "A", F32.ofNat 16777216,
           [⟨"Withdraw", F32.ofNat 1⟩, ⟨"Initial", F32.ofNat 16777218⟩]⟩]) ∧
    F32.toInt? (F32.ofNat 16777218) = some 16777218 ∧
    F32.toInt? (F32.ofNat 1) = some 1 ∧
    F32.toInt? (F32.ofNat 16777216) = some 16777216 ∧
    (16777216 : Int) ≠ 16777218 - 1 :=
  ⟨by decide, by decide, by decide, by decide, by decide, by decide, by decide⟩

/-- C9 (deposit postcondition and history order, amended to float arithmetic): for an
existing account with balance `b` whose history, newest first, is `H`, and an amount
`a > 0`, `deposit` succeeds, prints and stores the single-precision sum `F32.add b a`,
that is `b + a` rounded to the nearest float, and `show_transactions` afterwards lists
`(Deposit, a)` followed by `H`. -/
theorem deposit_postcondition (head : List Account) (acc_no : Int) (amt : F32)
    (acc : Account) (name : String) (H : List (String × F32))
    (hfind : find_account head acc_no = some acc)
    (hhist : show_transactions head acc_no = some (name, H))
    (_hpos : F32.gt amt F32.zero = true) :
    (deposit head acc_no amt).1 = Output.depositSuccessful (F32.add acc.balance amt) ∧
      (∃ acc1, find_account (deposit head acc_no amt).2 acc_no = some acc1 ∧
        acc1.balance = F32.add acc.balance amt) ∧
      show_transactions (deposit head acc_no amt).2 acc_no
        = some (name, ("Deposit", amt) :: H) := by
  have hno := find_account_acc_no hfind
  have h1 := find_write_account
    { acc with balance := F32.add acc.balance amt,
               top := { type := "Deposit", amount := amt } :: acc.top }
    hfind hno
  simp only [show_transactions, hfind, Option.some.injEq, Prod.mk.injEq] at hhist
  obtain ⟨hname, hH⟩ := hhist
  rw [deposit_eq amt hfind]
  refine ⟨rfl, ⟨_, h1, rfl⟩, ?_⟩
  simp only [show_transactions, h1]
  rw [← hname, ← hH]
  rfl

/-- C9, evaluated: depositing 50 on a fresh account opened with 100. -/
theorem deposit_postcondition_witness :
    (deposit (opened_with 100) 1 (F32.ofNat 50)).1 = Output.depositSuccessful (F32.ofNat 150) ∧
    show_transactions (deposit (opened_with 100) 1 (F32.ofNat 50)).2 1
      = some ("A", [("Deposit", F32.ofNat 50), ("Initial", F32.ofNat 100)]) :=
  ⟨(deposit_postcondition (opened_with 100) 1 (F32.ofNat 50)
      ⟨1, "A", F32.ofNat 100, [⟨"Initial", F32.ofNat 100⟩]⟩ "A" [("Initial", F32.ofNat 100)]
      (by decide) (by decide) (by decide)).1.trans (by decide),
   (deposit_postcondition (opened_with 100) 1 (F32.ofNat 50)
      ⟨1, "A", F32.ofNat 100, [⟨"Initial", F32.ofNat 100⟩]⟩ "A" [("Initial", F32.ofNat 100)]
      (by decide) (by decide) (by decide)).2.2⟩

/-- C9 as stated fails: balance 16777216, amount 1 `> 0`.  The deposit succeeds, prints
and stores 16777216, the balance it started from, and the history gains `(Deposit, 1)`;
the sum `b + a` is 16777217, which no float represents. -/
theorem deposit_postcondition_counterexample :
    F32.gt (F32.ofNat 1) F32.zero = true ∧
    deposit (opened_with 16777216) 1 (F32.ofNat 1)
      = (Output.depositSuccessful (F32.ofNat 16777216),
         [⟨1, "A", F32.ofNat 16777216,
           [⟨"Deposit", F32.ofNat 1⟩, ⟨"Initial", F32.ofNat 16777216⟩]⟩]) ∧
    show_transactions (deposit (opened_with 16777216) 1 (F32.ofNat 1)).2 1
      = some ("A", [("Deposit", F32.ofNat 1), ("Initial", F32.ofNat 16777216)]) ∧
    F32.toInt? (F32.ofNat 16777216) = some 16777216 ∧
    F32.toInt? (F32.ofNat 1) = some 1 ∧
    (16777216 : Int) ≠ 16777216 + 1 :=
  ⟨by decide, by decide, by decide, by decide, by decide, by decide⟩

/-- C10 (undo postcondition, LIFO, amended to float arithmetic): for an account whose
ledger has more than one entry, with balance `b` and top entry `(type, a)`,
`undo_transaction` removes exactly that top entry, leaves the entries below as they are,
prints `(type, a, newBalance)` and stores `newBalance`, which is the single-precision
difference `F32.sub b a` for a Deposit and the single-precision sum `F32.add b a` for a
Withdraw, that is `b - a` resp. `b + a` rounded to the nearest float. -/
theorem undo_postcondition (head : List Account) (acc_no : Int) (acc : Account)
    (type : String) (amt : F32) (u : Transaction) (older : List Transaction)
    (hfind : find_account head acc_no = some acc)
    (htop : acc.top = { type := type, amount := amt } :: u :: older) :
    ∃ newBalance,
      (undo_transaction head acc_no).1 = Output.undone type amt newBalance ∧
      find_account (undo_transaction head acc_no).2 acc_no
        = some { acc with balance := newBalance, top := u :: older } ∧
      (type = "Deposit" → newBalance = F32.sub acc.balance amt) ∧
      (type = "Withdraw" → newBalance = F32.add acc.balance amt) := by
  refine ⟨if type = "Deposit" then F32.sub acc.balance amt
      else if type = "Withdraw" then F32.add acc.balance amt else acc.balance, ?_, ?_, ?_, ?_⟩
  · simp [undo_transaction, hfind, htop, has_second, pop_trans]
  · have hno := find_account_acc_no hfind
    simp only [undo_transaction, hfind, htop, has_second, pop_trans, if_true]
    exact find_write_account _ hfind hno
  · intro h; rw [if_pos h]
  · intro h
    have hn : type ≠ "Deposit" := by rw [h]; decide
    rw [if_neg hn, if_pos h]

/-- C10, evaluated: undoing the withdrawal of 50 on top of deposit 50 and initial 100
reports `(Withdraw, 50, 150)` and leaves the two older entries. -/
theorem undo_postcondition_witness :
    ∃ newBalance,
      (undo_transaction
        [⟨1, "Alice", F32.ofNat 100, [⟨"Withdraw", F32.ofNat 50⟩,
          ⟨"Deposit", F32.ofNat 50⟩, ⟨"Initial", F32.ofNat 100⟩]⟩] 1).1
        = Output.undone "Withdraw" (F32.ofNat 50) newBalance ∧
      find_account (undo_transaction
        [⟨1, "Alice", F32.ofNat 100, [⟨"Withdraw", F32.ofNat 50⟩,
          ⟨"Deposit", F32.ofNat 50⟩, ⟨"Initial", F32.ofNat 100⟩]⟩] 1).2 1
        = some ⟨1, "Alice", newBalance,
            [⟨"Deposit", F32.ofNat 50⟩, ⟨"Initial", F32.ofNat 100⟩]⟩ ∧
      ("Withdraw" = "Deposit" → newBalance = F32.sub (F32.ofNat 100) (F32.ofNat 50)) ∧
      ("Withdraw" = "Withdraw" → newBalance = F32.add (F32.ofNat 100) (F32.ofNat 50)) :=
  undo_postcondition _ 1
    ⟨1, "Alice", F32.ofNat 100, [⟨"Withdraw", F32.ofNat 50⟩,
      ⟨"Deposit", F32.ofNat 50⟩, ⟨"Initial", F32.ofNat 100⟩]⟩
    "Withdraw" (F32.ofNat 50) ⟨"Deposit", F32.ofNat 50⟩ [⟨"Initial", F32.ofNat 100⟩]
    (by decide) rfl

/-- C10 as stated fails on a reachable list: the account holds 16777216 with
`(Withdraw, 1)` on top of `(Initial, 16777218)`.  The undo removes the top entry, reports
`(Withdraw, 1, 16777216)` and stores 16777216; `b + a` is 16777217, which no float
represents. -/
theorem undo_postcondition_counterexample :
    find_account rounded_withdrawal 1
      = some ⟨1, "A", F32.ofNat 16777216,
          [⟨"Withdraw", F32.ofNat 1⟩, ⟨"Initial", F32.ofNat 16777218⟩]⟩ ∧
    undo_transaction rounded_withdrawal 1
      = (Output.undone "Withdraw" (F32.ofNat 1) (F32.ofNat 16777216),
         [⟨1, "A", F32.ofNat 16777216, [⟨"Initial", F32.ofNat 16777218⟩]⟩]) ∧
    F32.toInt? (F32.ofNat 16777216) = some 16777216 ∧
    F32.toInt? (F32.ofNat 1) = some 1 ∧
    (16777216 : Int) ≠ 16777216 + 1 :=
  ⟨by decide, by decide, by decide, by decide, by decide⟩

/-! ## Lookup, creation, deletion and listing -/

theorem find_account_eq_none_iff (head : List Account) (acc_no : Int) :
    find_account head acc_no = none ↔ ∀ x ∈ head, x.acc_no ≠ acc_no := by
  induction head with
  | nil => simp [find_account]
  | cons p next ih =>
    by_cases hp : p.acc_no = acc_no
    · simp [find_account, hp]
    · simp [find_account, hp, ih]

theorem find_account_decompose {head : List Account} {acc_no : Int} {acc : Account}
    (h : find_account head acc_no = some acc) :
    ∃ pre post, head = pre ++ acc :: post ∧ (∀ x ∈ pre, x.acc_no ≠ acc_no) ∧
      (∀ new, write_account head acc_no new = pre ++ new :: post) ∧
      delete_account head acc_no = (Output.accountDeleted, pre ++ post) := by
  induction head with
  | nil => simp [find_account] at h
  | cons p next ih =>
    by_cases hp : p.acc_no = acc_no
    · simp only [find_account, hp, if_true, Option.some.injEq] at h
      subst h
      exact ⟨[], next, rfl, by simp, fun new => by simp [write_account, hp],
        by simp [delete_account, hp]⟩
    · simp only [find_account, hp, if_false] at h
      obtain ⟨pre, post, h1, h2, h3, h4⟩ := ih h
      refine ⟨p :: pre, post, by simp [h1], ?_, ?_, ?_⟩
      · intro x hx
        rcases List.mem_cons.mp hx with hx | hx
        · rw [hx]; exact hp
        · exact h2 x hx
      · intro new
        simp [write_account, hp, h3 new]
      · simp [delete_account, hp, h4]

theorem delete_account_of_find_none {head : List Account} {acc_no : Int}
    (h : find_account head acc_no = none) :
    delete_account head acc_no = (Output.noSuchAccount, head) := by
  induction head with
  | nil => rfl
  | cons p next ih =>
    by_cases hp : p.acc_no = acc_no
    · simp [find_account, hp] at h
    · simp only [find_account, hp, if_false] at h
      simp [delete_account, hp, ih h]

/-- C11 (CreateAccount postcondition): when no account carries the number and the opening
amount is `>= 0`, after `add_account` the lookup of that number returns an account with
that number and name, balance equal to the opening amount and the one-entry ledger
`(Initial, amount)`; the previous accounts follow unchanged, and the lookup of any other
number gives what it gave before. -/
theorem add_account_postcondition (head : List Account) (acc_no : Int) (name : String)
    (amt : F32) (_hfree : find_account head acc_no = none)
    (_hamt : F32.le F32.zero amt = true) :
    find_account (add_account head acc_no name amt).2 acc_no
        = some { acc_no := acc_no, name := name, balance := amt,
                 top := [{ type := "Initial", amount := amt }] } ∧
      (add_account head acc_no name amt).2
        = { acc_no := acc_no, name := name, balance := amt,
            top := [{ type := "Initial", amount := amt }] } :: head ∧
      (∀ other, other ≠ acc_no →
        find_account (add_account head acc_no name amt).2 other = find_account head other) := by
  refine ⟨by simp [add_account, find_account, push_trans], rfl, ?_⟩
  intro other ho
  simp [add_account, find_account, Ne.symm ho]

/-- C11, evaluated: creating account 2 next to account 1. -/
theorem add_account_postcondition_witness :
    find_account (add_account alice_150 2 "Bob" (F32.ofNat 7)).2 2
        = some { acc_no := 2, name := "Bob", balance := F32.ofNat 7,
                 top := [{ type := "Initial", amount := F32.ofNat 7 }] } ∧
      (add_account alice_150 2 "Bob" (F32.ofNat 7)).2
        = { acc_no := 2, name := "Bob", balance := F32.ofNat 7,
            top := [{ type := "Initial", amount := F32.ofNat 7 }] } :: alice_150 ∧
      (∀ other, other ≠ 2 →
        find_account (add_account alice_150 2 "Bob" (F32.ofNat 7)).2 other
          = find_account alice_150 other) :=
  add_account_postcondition alice_150 2 "Bob" (F32.ofNat 7) (by decide) (by decide)

/-- C14 (Find is a correct lookup): `find_account` returns NULL exactly when no node of
the list carries the number; otherwise the node it returns carries the number and is the
first such node in list order, which after `add_account` with that number is the new
account.  The function only reads the list: its sole result is the node found. -/
theorem find_account_correct (head : List Account) (acc_no : Int) :
    (find_account head acc_no = none ↔ ∀ x ∈ head, x.acc_no ≠ acc_no) ∧
      (∀ acc, find_account head acc_no = some acc →
        acc.acc_no = acc_no ∧
        ∃ pre post, head = pre ++ acc :: post ∧ ∀ x ∈ pre, x.acc_no ≠ acc_no) ∧
      (∀ name amt,
        find_account (add_account head acc_no name amt).2 acc_no
          = some { acc_no := acc_no, name := name, balance := amt,
                   top := [{ type := "Initial", amount := amt }] }) := by
  refine ⟨find_account_eq_none_iff head acc_no, ?_, ?_⟩
  · intro acc h
    obtain ⟨pre, post, h1, h2, _, _⟩ := find_account_decompose h
    exact ⟨find_account_acc_no h, pre, post, h1, h2⟩
  · intro name amt
    simp [add_account, find_account, push_trans]

/-- C15 (Delete removes exactly the addressed account): when no node carries the number,
`delete_account` prints "No such account." and the list is unchanged; otherwise it
removes the first node with the number and keeps every other node, with all its fields,
in the same order. -/
theorem delete_account_frame (head : List Account) (acc_no : Int) :
    (find_account head acc_no = none →
        delete_account head acc_no = (Output.noSuchAccount, head)) ∧
      (∀ acc, find_account head acc_no = some acc →
        ∃ pre post, head = pre ++ acc :: post ∧ (∀ x ∈ pre, x.acc_no ≠ acc_no) ∧
          delete_account head acc_no = (Output.accountDeleted, pre ++ post)) := by
  refine ⟨delete_account_of_find_none, ?_⟩
  intro acc h
  obtain ⟨pre, post, h1, h2, _, h4⟩ := find_account_decompose h
  exact ⟨pre, post, h1, h2, h4⟩

/-- C18 (listing order): after `add_account` the listing is the new row followed by the
previous listing; the menu choice that lists leaves the list as it is, so a second
listing prints the same rows. -/
theorem show_accounts_after_add (head : List Account) (acc_no : Int) (name : String)
    (amt : F32) :
    show_accounts (add_account head acc_no name amt).2
        = (acc_no, name, amt) :: show_accounts head ∧
      exec head Cmd.showAll = head ∧
      show_accounts (exec head Cmd.showAll) = show_accounts head := by
  refine ⟨?_, rfl, ?_⟩
  · simp only [add_account, show_accounts, List.map_cons]
  · rw [exec]

/-! ## The example scenario -/

/-- C16 (example scenario): from the empty list, create (1, Alice, 100); deposit 50
prints 150; withdrawing 200 is refused with the balance still 150; withdrawing 50 prints
100; undo reports (Withdraw, 50, 150); a second undo succeeds; a third reports nothing to
undo with the balance 100.  Histories are as the scenario lists them. -/
theorem example_scenario :
    find_account scenario_1 1
        = some ⟨1, "Alice", F32.ofNat 100, [⟨"Initial", F32.ofNat 100⟩]⟩ ∧
      show_transactions scenario_1 1 = some ("Alice", [("Initial", F32.ofNat 100)]) ∧
      (deposit scenario_1 1 (F32.ofNat 50)).1 = Output.depositSuccessful (F32.ofNat 150) ∧
      show_transactions scenario_2 1
        = some ("Alice", [("Deposit", F32.ofNat 50), ("Initial", F32.ofNat 100)]) ∧
      withdraw scenario_2 1 (F32.ofNat 200) = (Output.insufficientFunds, scenario_2) ∧
      (find_account scenario_3 1).map Account.balance = some (F32.ofNat 150) ∧
      (withdraw scenario_3 1 (F32.ofNat 50)).1
        = Output.withdrawalSuccessful (F32.ofNat 100) ∧
      (undo_transaction scenario_4 1).1
        = Output.undone "Withdraw" (F32.ofNat 50) (F32.ofNat 150) ∧
      show_transactions scenario_5 1
        = some ("Alice", [("Deposit", F32.ofNat 50), ("Initial", F32.ofNat 100)]) ∧
      (undo_transaction scenario_5 1).1
        = Output.undone "Deposit" (F32.ofNat 50) (F32.ofNat 100) ∧
      undo_transaction scenario_6 1 = (Output.nothingToUndo, scenario_6) ∧
      (find_account scenario_6 1).map Account.balance = some (F32.ofNat 100) :=
  ⟨by decide, by decide, by decide, by decide, by decide, by decide, by decide, by decide,
    by decide, by decide, by decide, by decide⟩

/-! ## Undo on a missing account -/

/-- C17, the code at the failing input: for a number no account carries,
`undo_transaction` prints the "Nothing to undo" message, the same output as for an
existing account whose ledger holds only its Initial entry, while `deposit`, `withdraw`,
`show_transactions` and `delete_account` report the missing account as such. -/
theorem undo_missing_account_output :
    undo_transaction scenario_1 7 = (Output.nothingToUndo, scenario_1) ∧
      (undo_transaction scenario_1 1).1 = Output.nothingToUndo ∧
      (undo_transaction scenario_1 7).1 = (undo_transaction scenario_1 1).1 ∧
      (deposit scenario_1 7 (F32.ofNat 5)).1 = Output.noSuchAccount ∧
      (withdraw scenario_1 7 (F32.ofNat 5)).1 = Output.noSuchAccount ∧
      show_transactions scenario_1 7 = none ∧
      (delete_account scenario_1 7).1 = Output.noSuchAccount :=
  ⟨by decide, by decide, by decide, by decide, by decide, by decide, by decide⟩

/-! ## Frame of deposit, withdraw and undo -/

theorem undo_transaction_eq {head : List Account} {acc_no : Int} {acc : Account}
    {t u : Transaction} {older : List Transaction}
    (hfind : find_account head acc_no = some acc) (htop : acc.top = t :: u :: older) :
    undo_transaction head acc_no
      = (Output.undone t.type t.amount (undo_balance t.type t.amount acc.balance),
         write_account head acc_no
           { acc with balance := undo_balance t.type t.amount acc.balance,
                      top := u :: older }) := by
  simp [undo_transaction, hfind, htop, has_second, pop_trans, undo_balance]

theorem undo_transaction_eq_self {head : List Account} {acc_no : Int} {acc : Account}
    (hfind : find_account head acc_no = some acc) (hs : has_second acc.top = false) :
    undo_transaction head acc_no = (Output.nothingToUndo, head) := by
  simp [undo_transaction, hfind, hs]

theorem has_second_eq_true {top : List Transaction} (h : has_second top = true) :
    ∃ t u older, top = t :: u :: older := by
  match top with
  | [] => simp [has_second] at h
  | [_] => simp [has_second] at h
  | t :: u :: older => exact ⟨t, u, older, rfl⟩

/-- C20 (per-account frame): a deposit, withdraw or undo command addressed to `id`
leaves the whole list unchanged when `find_account id` finds nothing; otherwise the list
after the command is the list before it with the found account, in its place, replaced
by an account that has the same number and name, so only its balance and ledger can
differ, and every other account and the order are unchanged. -/
theorem per_account_frame (head : List Account) (acc_no : Int) (c : Cmd)
    (hc : addressed_to acc_no c = true) :
    (find_account head acc_no = none → exec head c = head) ∧
      (∀ acc, find_account head acc_no = some acc →
        ∃ pre post balance top,
          head = pre ++ acc :: post ∧ (∀ x ∈ pre, x.acc_no ≠ acc_no) ∧
          exec head c = pre ++ { acc with balance := balance, top := top } :: post) := by
  have key : ∀ acc, find_account head acc_no = some acc →
      ∀ balance top, (exec head c = head ∧ balance = acc.balance ∧ top = acc.top) ∨
          exec head c = write_account head acc_no { acc with balance := balance, top := top } →
        ∃ pre post balance top,
          head = pre ++ acc :: post ∧ (∀ x ∈ pre, x.acc_no ≠ acc_no) ∧
          exec head c = pre ++ { acc with balance := balance, top := top } :: post := by
    intro acc hfind balance top h
    obtain ⟨pre, post, h1, h2, h3, _⟩ := find_account_decompose hfind
    refine ⟨pre, post, balance, top, h1, h2, ?_⟩
    rcases h with ⟨h, hb, ht⟩ | h
    · rw [h, hb, ht]; exact h1
    · rw [h, h3]
  cases c with
  | add n nm a => simp [addressed_to] at hc
  | showAll => simp [addressed_to] at hc
  | showTrans n => simp [addressed_to] at hc
  | delete n => simp [addressed_to] at hc
  | deposit n a =>
    simp only [addressed_to, decide_eq_true_eq] at hc
    subst hc
    refine ⟨fun h => by simp [exec, deposit, h], fun acc hfind => ?_⟩
    exact key acc hfind _ _ (Or.inr (by rw [exec, deposit_eq a hfind]))
  | withdraw n a =>
    simp only [addressed_to, decide_eq_true_eq] at hc
    subst hc
    refine ⟨fun h => by simp [exec, withdraw, h], fun acc hfind => ?_⟩
    cases hg : F32.gt a acc.balance with
    | true =>
      exact key acc hfind acc.balance acc.top
        (Or.inl ⟨by simp [exec, withdraw, hfind, hg], rfl, rfl⟩)
    | false => exact key acc hfind _ _ (Or.inr (by rw [exec, withdraw_eq a hfind hg]))
  | undo n =>
    simp only [addressed_to, decide_eq_true_eq] at hc
    subst hc
    refine ⟨fun h => by simp [exec, undo_transaction, h], fun acc hfind => ?_⟩
    cases hs : has_second acc.top with
    | false =>
      exact key acc hfind acc.balance acc.top
        (Or.inl ⟨by rw [exec, undo_transaction_eq_self hfind hs], rfl, rfl⟩)
    | true =>
      obtain ⟨t, u, older, htop⟩ := has_second_eq_true hs
      exact key acc hfind _ _ (Or.inr (by rw [exec, undo_transaction_eq hfind htop]))

/-- C20, evaluated: a deposit to account 1 of a two-account list. -/
theorem per_account_frame_witness :
    (find_account twice_one 1 = none → exec twice_one (Cmd.deposit 1 (F32.ofNat 3)) = twice_one) ∧
      (∀ acc, find_account twice_one 1 = some acc →
        ∃ pre post balance top,
          twice_one = pre ++ acc :: post ∧ (∀ x ∈ pre, x.acc_no ≠ 1) ∧
          exec twice_one (Cmd.deposit 1 (F32.ofNat 3))
            = pre ++ { acc with balance := balance, top := top } :: post) :=
  per_account_frame twice_one 1 (Cmd.deposit 1 (F32.ofNat 3)) (by decide)

/-! ## Invariants of the reachable lists -/

theorem find_account_mem {head : List Account} {acc_no : Int} {acc : Account}
    (h : find_account head acc_no = some acc) : acc ∈ head := by
  obtain ⟨pre, post, h1, _, _, _⟩ := find_account_decompose h
  rw [h1]
  simp

theorem forall_mem_write_account {P : Account → Prop} {head : List Account} {acc_no : Int}
    {acc : Account} (new : Account) (hfind : find_account head acc_no = some acc)
    (hall : ∀ x ∈ head, P x) (hn : P new) : ∀ x ∈ write_account head acc_no new, P x := by
  obtain ⟨pre, post, h1, _, h3, _⟩ := find_account_decompose hfind
  rw [h3 new]
  rw [h1] at hall
  intro x hx
  rcases List.mem_append.mp hx with hx | hx
  · exact hall x (List.mem_append.mpr (Or.inl hx))
  · rcases List.mem_cons.mp hx with hx | hx
    · rw [hx]; exact hn
    · exact hall x (List.mem_append.mpr (Or.inr (List.mem_cons_of_mem _ hx)))

theorem forall_mem_delete_account {P : Account → Prop} (head : List Account) (acc_no : Int)
    (hall : ∀ x ∈ head, P x) : ∀ x ∈ (delete_account head acc_no).2, P x := by
  cases hfind : find_account head acc_no with
  | none => rw [delete_account_of_find_none hfind]; exact hall
  | some acc =>
    obtain ⟨pre, post, h1, _, _, h4⟩ := find_account_decompose hfind
    rw [h4]
    rw [h1] at hall
    intro x hx
    rcases List.mem_append.mp hx with hx | hx
    · exact hall x (List.mem_append.mpr (Or.inl hx))
    · exact hall x (List.mem_append.mpr (Or.inr (List.mem_cons_of_mem _ hx)))

/-- A property of accounts that holds for every node keeps holding after one menu choice,
provided the account each operation writes has it. -/
theorem forall_mem_exec {P : Account → Prop} (head : List Account) (c : Cmd)
    (hall : ∀ x ∈ head, P x)
    (hadd : ∀ n nm a, c = Cmd.add n nm a →
      P { acc_no := n, name := nm, balance := a, top := [{ type := "Initial", amount := a }] })
    (hdep : ∀ n a acc, c = Cmd.deposit n a → find_account head n = some acc → P acc →
      P { acc with balance := F32.add acc.balance a,
                   top := { type := "Deposit", amount := a } :: acc.top })
    (hwd : ∀ n a acc, c = Cmd.withdraw n a → find_account head n = some acc → P acc →
      F32.gt a acc.balance = false →
      P { acc with balance := F32.sub acc.balance a,
                   top := { type := "Withdraw", amount := a } :: acc.top })
    (hundo : ∀ n acc t u older, c = Cmd.undo n → find_account head n = some acc → P acc →
      acc.top = t :: u :: older →
      P { acc with balance := undo_balance t.type t.amount acc.balance, top := u :: older }) :
    ∀ x ∈ exec head c, P x := by
  cases c with
  | showAll => exact hall
  | showTrans n => exact hall
  | delete n => exact forall_mem_delete_account head n hall
  | add n nm a =>
    intro x hx
    simp only [exec, add_account, push_trans, List.mem_cons] at hx
    rcases hx with hx | hx
    · rw [hx]; exact hadd n nm a rfl
    · exact hall x hx
  | deposit n a =>
    cases hfind : find_account head n with
    | none => simpa [exec, deposit, hfind] using hall
    | some acc =>
      rw [exec, deposit_eq a hfind]
      exact forall_mem_write_account _ hfind hall
        (hdep n a acc rfl hfind (hall acc (find_account_mem hfind)))
  | withdraw n a =>
    cases hfind : find_account head n with
    | none => simpa [exec, withdraw, hfind] using hall
    | some acc =>
      cases hg : F32.gt a acc.balance with
      | true => simpa [exec, withdraw, hfind, hg] using hall
      | false =>
        rw [exec, withdraw_eq a hfind hg]
        exact forall_mem_write_account _ hfind hall
          (hwd n a acc rfl hfind (hall acc (find_account_mem hfind)) hg)
  | undo n =>
    cases hfind : find_account head n with
    | none => simpa [exec, undo_transaction, hfind] using hall
    | some acc =>
      cases hs : has_second acc.top with
      | false => rw [exec, undo_transaction_eq_self hfind hs]; exact hall
      | true =>
        obtain ⟨t, u, older, htop⟩ := has_second_eq_true hs
        rw [exec, undo_transaction_eq hfind htop]
        exact forall_mem_write_account _ hfind hall
          (hundo n acc t u older rfl hfind (hall acc (find_account_mem hfind)) htop)

theorem ledger_ok_push {top : List Transaction} (h : ledger_ok top = true) (t : Transaction)
    (ht : t.type = "Deposit" ∨ t.type = "Withdraw") : ledger_ok (t :: top) = true := by
  cases top with
  | nil => simp [ledger_ok] at h
  | cons u older => simpa [ledger_ok, h] using ht

theorem ledger_ok_tail {t u : Transaction} {older : List Transaction}
    (h : ledger_ok (t :: u :: older) = true) : ledger_ok (u :: older) = true := by
  simp only [ledger_ok, Bool.and_eq_true] at h
  exact h.2

theorem exec_keeps_ledger_ok (head : List Account) (c : Cmd)
    (hall : ∀ x ∈ head, ledger_ok x.top = true) : ∀ x ∈ exec head c, ledger_ok x.top = true := by
  apply forall_mem_exec (P := fun x => ledger_ok x.top = true) head c hall
  · intro n nm a _
    simp [ledger_ok]
  · intro n a acc _ _ h
    exact ledger_ok_push h _ (Or.inl rfl)
  · intro n a acc _ _ h _
    exact ledger_ok_push h _ (Or.inr rfl)
  · intro n acc t u older _ _ h htop
    rw [htop] at h
    exact ledger_ok_tail h

theorem main_loop_keeps_ledger_ok (cmds : List Cmd) :
    ∀ head : List Account, (∀ x ∈ head, ledger_ok x.top = true) →
      ∀ x ∈ main_loop head cmds, ledger_ok x.top = true := by
  induction cmds with
  | nil => intro head h; exact h
  | cons c cs ih =>
    intro head h
    exact ih (exec head c) (exec_keeps_ledger_ok head c h)

theorem ledger_ok_shape (top : List Transaction) (h : ledger_ok top = true) :
    top ≠ [] ∧ (∃ a, top.getLast? = some { type := "Initial", amount := a }) ∧
      ∀ t ∈ top.dropLast, t.type ≠ "Initial" := by
  induction top with
  | nil => simp [ledger_ok] at h
  | cons t rest ih =>
    cases rest with
    | nil =>
      simp only [ledger_ok, decide_eq_true_eq] at h
      refine ⟨by simp, ⟨t.amount, ?_⟩, by simp⟩
      cases t
      simp_all
    | cons u older =>
      simp only [ledger_ok, Bool.and_eq_true, Bool.or_eq_true, decide_eq_true_eq] at h
      obtain ⟨_, ⟨a, ha⟩, h3⟩ := ih h.2
      refine ⟨by simp, ⟨a, ?_⟩, ?_⟩
      · rw [List.getLast?_cons_cons]; exact ha
      · intro x hx
        rw [List.dropLast_cons₂] at hx
        rcases List.mem_cons.mp hx with hx | hx
        · rw [hx]
          rcases h.1 with hd | hw
          · rw [hd]; decide
          · rw [hw]; decide
        · exact h3 x hx

theorem undo_keeps_bottom (head : List Account) (acc_no : Int) (acc : Account)
    (hfind : find_account head acc_no = some acc) :
    ∃ acc1, find_account (undo_transaction head acc_no).2 acc_no = some acc1 ∧
      acc1.top.getLast? = acc.top.getLast? := by
  cases hs : has_second acc.top with
  | false => exact ⟨acc, by rw [undo_transaction_eq_self hfind hs]; exact hfind, rfl⟩
  | true =>
    obtain ⟨t, u, older, htop⟩ := has_second_eq_true hs
    have hno := find_account_acc_no hfind
    refine ⟨_, by rw [undo_transaction_eq hfind htop]; exact find_write_account _ hfind hno, ?_⟩
    rw [htop, List.getLast?_cons_cons]

/-- C12 (ledger shape invariant): in every list reachable from the empty list by any
sequence of menu choices, every account's ledger is non-empty, its oldest entry is an
Initial entry, no entry above it is an Initial entry, and an undo addressed to any number
leaves the oldest entry of the account it finds in place. -/
theorem ledger_shape_invariant (cmds : List Cmd) :
    (∀ acc ∈ main_loop [] cmds,
        acc.top ≠ [] ∧ (∃ a, acc.top.getLast? = some { type := "Initial", amount := a }) ∧
        ∀ t ∈ acc.top.dropLast, t.type ≠ "Initial") ∧
      (∀ acc_no acc, find_account (main_loop [] cmds) acc_no = some acc →
        ∃ acc1, find_account (undo_transaction (main_loop [] cmds) acc_no).2 acc_no = some acc1 ∧
          acc1.top.getLast? = acc.top.getLast?) := by
  refine ⟨fun acc hacc => ?_, fun acc_no acc hfind => undo_keeps_bottom _ acc_no acc hfind⟩
  exact ledger_ok_shape acc.top
    (main_loop_keeps_ledger_ok cmds [] (by simp) acc hacc)

/-! ## Sign of float sums and differences -/

theorem F32.signed_nonneg_iff (s : Bool) (m : Nat) : 0 ≤ F32.signed s m ↔ s = false ∨ m = 0 := by
  cases s <;> simp [F32.signed]

theorem F32.le_zero_fin_iff (s : Bool) (m : Nat) (e : Int) :
    F32.le F32.zero (F32.fin s m e) = true ↔ s = false ∨ m = 0 := by
  simp only [F32.le, F32.zero, decide_eq_true_eq, zero_mul]
  rw [show F32.signed false 0 = 0 from rfl, F32.signed_nonneg_iff]
  constructor
  · rintro (h | h)
    · exact Or.inl h
    · rcases Nat.mul_eq_zero.mp h with h | h
      · exact Or.inr h
      · exact absurd h (by positivity)
  · rintro (h | h)
    · exact Or.inl h
    · exact Or.inr (by rw [h, zero_mul])

theorem F32.le_zero_roundNE (M : Nat) (e : Int) :
    F32.le F32.zero (F32.roundNE false M e) = true := by
  unfold F32.roundNE
  dsimp only
  split_ifs <;> first
    | exact (F32.le_zero_fin_iff _ _ _).mpr (Or.inl rfl)
    | rfl

theorem F32.le_zero_of_gt_zero {a : F32} (h : F32.gt a F32.zero = true) :
    F32.le F32.zero a = true := by
  match a with
  | F32.nan => simp [F32.gt] at h
  | F32.inf s => simpa [F32.gt, F32.le, F32.zero] using h
  | F32.fin s m e =>
    simp only [F32.gt, F32.zero, decide_eq_true_eq] at h
    simp only [F32.le, F32.zero, decide_eq_true_eq]
    rw [min_comm]
    exact le_of_lt h

theorem F32.le_of_gt_eq_false {a b : F32} (h : F32.gt a b = false)
    (ha : F32.finite a = true) (hb : F32.le F32.zero b = true) : F32.le a b = true := by
  match a, b with
  | F32.nan, _ => simp [F32.finite] at ha
  | F32.inf _, _ => simp [F32.finite] at ha
  | F32.fin _ _ _, F32.nan => simp [F32.le, F32.zero] at hb
  | F32.fin _ _ _, F32.inf t => simpa [F32.le, F32.zero] using hb
  | F32.fin _ _ _, F32.fin _ _ _ =>
    simp only [F32.gt, decide_eq_false_iff_not, not_lt] at h
    simpa [F32.le] using h

theorem F32.le_zero_add {a b : F32} (ha : F32.le F32.zero a = true)
    (hb : F32.le F32.zero b = true) : F32.le F32.zero (F32.add a b) = true := by
  match a, b with
  | F32.nan, _ => simp [F32.le, F32.zero] at ha
  | F32.inf _, F32.nan => simp [F32.le, F32.zero] at hb
  | F32.fin _ _ _, F32.nan => simp [F32.le, F32.zero] at hb
  | F32.inf s, F32.inf t =>
    simp only [F32.le, F32.zero, Bool.not_eq_true'] at ha hb
    subst ha; subst hb
    rfl
  | F32.inf s, F32.fin _ _ _ => simpa [F32.add, F32.le, F32.zero] using ha
  | F32.fin _ _ _, F32.inf t => simpa [F32.add, F32.le, F32.zero] using hb
  | F32.fin s1 m1 e1, F32.fin s2 m2 e2 =>
    rw [F32.le_zero_fin_iff] at ha hb
    have h1 : 0 ≤ F32.signed s1 (m1 * 2 ^ (e1 - min e1 e2).toNat) := by
      rw [F32.signed_nonneg_iff]
      rcases ha with h | h
      · exact Or.inl h
      · exact Or.inr (by rw [h, zero_mul])
    have h2 : 0 ≤ F32.signed s2 (m2 * 2 ^ (e2 - min e1 e2).toNat) := by
      rw [F32.signed_nonneg_iff]
      rcases hb with h | h
      · exact Or.inl h
      · exact Or.inr (by rw [h, zero_mul])
    simp only [F32.add]
    split_ifs with hz
    · exact (F32.le_zero_fin_iff _ _ _).mpr (Or.inr rfl)
    · have hneg : decide (F32.signed s1 (m1 * 2 ^ (e1 - min e1 e2).toNat)
          + F32.signed s2 (m2 * 2 ^ (e2 - min e1 e2).toNat) < 0) = false := by
        rw [decide_eq_false_iff_not]
        omega
      rw [hneg]
      exact F32.le_zero_roundNE _ _

theorem F32.signed_not (s : Bool) (m : Nat) : F32.signed (!s) m = -F32.signed s m := by
  cases s <;> simp [F32.signed]

theorem F32.le_zero_sub {a b : F32} (ha : F32.finite a = true) (h : F32.le a b = true) :
    F32.le F32.zero (F32.sub b a) = true := by
  match a, b with
  | F32.nan, _ => simp [F32.finite] at ha
  | F32.inf _, _ => simp [F32.finite] at ha
  | F32.fin _ _ _, F32.nan => simp [F32.le] at h
  | F32.fin _ _ _, F32.inf t =>
    simp only [F32.le, Bool.not_eq_true'] at h
    subst h
    rfl
  | F32.fin s1 m1 e1, F32.fin s2 m2 e2 =>
    simp only [F32.le, decide_eq_true_eq] at h
    simp only [F32.sub, F32.neg, F32.add, F32.signed_not]
    rw [min_comm e2 e1]
    split_ifs with hz
    · exact (F32.le_zero_fin_iff _ _ _).mpr (Or.inr rfl)
    · have hneg : decide (F32.signed s2 (m2 * 2 ^ (e2 - min e1 e2).toNat)
          + -F32.signed s1 (m1 * 2 ^ (e1 - min e1 e2).toNat) < 0) = false := by
        rw [decide_eq_false_iff_not]
        omega
      rw [hneg]
      exact F32.le_zero_roundNE _ _

/-! ## Non-negative balances -/

theorem balance_nonneg_of_ledger_nonneg {acc : Account} (hok : account_ok acc)
    (hn : ledger_nonneg acc.top = true) : F32.le F32.zero acc.balance = true := by
  obtain ⟨hb, hl⟩ := hok
  cases htop : acc.top with
  | nil => rw [htop] at hl; simp [ledger_ok] at hl
  | cons t older =>
    rw [htop] at hn hb
    simp only [ledger_nonneg, Bool.and_eq_true] at hn
    rw [hb]
    exact hn.1

theorem exec_keeps_nonneg (head : List Account) (c : Cmd)
    (hall : ∀ x ∈ head, account_ok x ∧ ledger_nonneg x.top = true)
    (hv : valid_amounts c = true) (hx : exact_undos head [c] = true) :
    ∀ x ∈ exec head c, account_ok x ∧ ledger_nonneg x.top = true := by
  apply forall_mem_exec (P := fun x => account_ok x ∧ ledger_nonneg x.top = true) head c hall
  · intro n nm a hc
    subst hc
    simp only [valid_amounts, Bool.and_eq_true] at hv
    refine ⟨account_ok_add n nm a, ?_⟩
    simpa [ledger_nonneg, replay] using hv.2
  · intro n a acc hc _ hP
    subst hc
    simp only [valid_amounts, Bool.and_eq_true] at hv
    have hok := account_ok_deposit hP.1 a
    refine ⟨hok, ?_⟩
    have hb : F32.le F32.zero (F32.add acc.balance a) = true :=
      F32.le_zero_add (balance_nonneg_of_ledger_nonneg hP.1 hP.2)
        (F32.le_zero_of_gt_zero hv.2)
    have hr := hok.1
    simp only [push_trans] at hr
    simp only [ledger_nonneg, Bool.and_eq_true]
    exact ⟨by rw [← hr]; exact hb, hP.2⟩
  · intro n a acc hc _ hP hg
    subst hc
    simp only [valid_amounts, Bool.and_eq_true] at hv
    have hok := account_ok_withdraw hP.1 a
    refine ⟨hok, ?_⟩
    have hb : F32.le F32.zero (F32.sub acc.balance a) = true :=
      F32.le_zero_sub hv.1
        (F32.le_of_gt_eq_false hg hv.1 (balance_nonneg_of_ledger_nonneg hP.1 hP.2))
    have hr := hok.1
    simp only [push_trans] at hr
    simp only [ledger_nonneg, Bool.and_eq_true]
    exact ⟨by rw [← hr]; exact hb, hP.2⟩
  · intro n acc t u older hc hfind hP htop
    subst hc
    have hs : has_second acc.top = true := by rw [htop]; rfl
    have hx1 : undo_exact acc.top = true := by
      simpa [exact_undos, hfind] using hx
    have hok := account_ok_undo hP.1 hs hx1
    simp only [htop, pop_trans] at hok
    refine ⟨hok, ?_⟩
    have hn := hP.2
    rw [htop] at hn
    simp only [ledger_nonneg, Bool.and_eq_true] at hn ⊢
    exact hn.2

theorem main_loop_keeps_nonneg (cmds : List Cmd) :
    ∀ head : List Account, (∀ x ∈ head, account_ok x ∧ ledger_nonneg x.top = true) →
      cmds.all valid_amounts = true → exact_undos head cmds = true →
      ∀ x ∈ main_loop head cmds, account_ok x ∧ ledger_nonneg x.top = true := by
  induction cmds with
  | nil => intro head h _ _; exact h
  | cons c cs ih =>
    intro head h hv hx
    simp only [List.all_cons, Bool.and_eq_true] at hv
    have hx2 : exact_undos head [c] = true ∧ exact_undos (exec head c) cs = true := by
      simp only [exact_undos, Bool.and_eq_true, Bool.and_true] at hx ⊢
      exact hx
    exact ih (exec head c) (exec_keeps_nonneg head c h hv.1 hx2.1) hv.2 hx2.2

/-- C13 (no negative balance, amended to finite amounts and exact undos): in every list
reachable from the empty list by commands whose amounts are finite numbers satisfying
the stated preconditions (opening amount `>= 0`, deposit and withdrawal amount `> 0`, any
undo, any delete) and whose undos are all exact in float arithmetic (`exact_undos`),
every account's balance is `>= 0`. -/
theorem balance_nonneg_of_exact_undos (cmds : List Cmd)
    (hvalid : cmds.all valid_amounts = true) (hexact : exact_undos [] cmds = true)
    (acc : Account) (hacc : acc ∈ main_loop [] cmds) :
    F32.le F32.zero acc.balance = true := by
  have h := main_loop_keeps_nonneg cmds [] (by simp) hvalid hexact acc hacc
  exact balance_nonneg_of_ledger_nonneg h.1 h.2

/-- C13, evaluated: create 100, deposit 50, withdraw 50, undo, undo, then delete a missing
number; the account holds 100. -/
theorem balance_nonneg_of_exact_undos_witness :
    F32.le F32.zero
      (Account.mk 1 "Alice" (F32.ofNat 100) [⟨"Initial", F32.ofNat 100⟩]).balance = true :=
  balance_nonneg_of_exact_undos
    [Cmd.add 1 "Alice" (F32.ofNat 100), Cmd.deposit 1 (F32.ofNat 50),
      Cmd.withdraw 1 (F32.ofNat 50), Cmd.undo 1, Cmd.undo 1, Cmd.delete 2]
    (by decide) (by decide)
    ⟨1, "Alice", F32.ofNat 100, [⟨"Initial", F32.ofNat 100⟩]⟩ (by decide)

/-- C13 as stated fails.  With valid finite amounts: open with 0, deposit 16777216,
deposit 1 (rounded away), undo, undo leaves the balance -1, driven below zero by the undo
of a deposit.  With an infinite amount, which is `> 0`: deposit infinity, withdraw
infinity leaves a NaN balance, which is not `>= 0`. -/
theorem balance_nonneg_counterexample :
    overdrawn_by_undo.all valid_amounts = true ∧
    find_account (main_loop [] overdrawn_by_undo) 1
      = some ⟨1, "A", F32.ofNegNat 1, [⟨"Initial", F32.zero⟩]⟩ ∧
    F32.le F32.zero (F32.ofNegNat 1) = false ∧
    F32.gt (F32.inf false) F32.zero = true ∧
    find_account (main_loop [] infinite_amounts) 1
      = some ⟨1, "A", F32.nan, [⟨"Withdraw", F32.inf false⟩, ⟨"Deposit", F32.inf false⟩,
          ⟨"Initial", F32.zero⟩]⟩ ∧
    F32.le F32.zero F32.nan = false :=
  ⟨by decide, by decide, by decide, by decide, by decide, by decide⟩

/-! ## Several deposits and withdrawals, then as many undos -/

theorem undo_after_push {head : List Account} {acc_no : Int} {acc : Account}
    (hfind : find_account head acc_no = some acc) (hne : acc.top ≠ [])
    (b x : F32) (t : Transaction) :
    undo_transaction
        (write_account
          (write_account head acc_no { acc with balance := b, top := t :: acc.top })
          acc_no { acc with balance := x, top := t :: acc.top }) acc_no
      = (Output.undone t.type t.amount (undo_balance t.type t.amount x),
         write_account head acc_no
           { acc with balance := undo_balance t.type t.amount x }) := by
  have hno := find_account_acc_no hfind
  cases htop : acc.top with
  | nil => exact absurd htop hne
  | cons u older =>
    have h1 : find_account (write_account head acc_no
        { acc with balance := b, top := t :: acc.top }) acc_no
        = some { acc with balance := b, top := t :: acc.top } :=
      find_write_account _ hfind hno
    have h2 := find_write_account { acc with balance := x, top := t :: acc.top } h1 hno
    rw [htop] at h2
    rw [undo_transaction_eq h2 rfl, write_account_write_account, write_account_write_account]
    all_goals exact hno

theorem undo_n_round_trip (ops : List Cmd) :
    ∀ (head : List Account) (acc_no : Int) (acc : Account),
      find_account head acc_no = some acc → acc.top ≠ [] →
      ops.all (deposit_or_withdraw acc_no) = true → all_succeed acc.balance ops = true →
      undo_n (main_loop head ops) acc_no ops.length
        = (undo_trace acc.balance ops,
           write_account head acc_no
             { acc with balance := round_trip_balance acc.balance ops }) := by
  induction ops with
  | nil =>
    intro head acc_no acc hfind _ _ _
    simp only [main_loop, List.foldl_nil, List.length_nil, undo_n, undo_trace,
      round_trip_balance]
    rw [write_account_self hfind]
  | cons c cs ih =>
    intro head acc_no acc hfind hne hops hsucc
    have hno := find_account_acc_no hfind
    simp only [List.all_cons, Bool.and_eq_true] at hops
    cases c with
    | add n nm a => simp [deposit_or_withdraw] at hops
    | showAll => simp [deposit_or_withdraw] at hops
    | showTrans n => simp [deposit_or_withdraw] at hops
    | delete n => simp [deposit_or_withdraw] at hops
    | undo n => simp [deposit_or_withdraw] at hops
    | deposit n a =>
      have hn : n = acc_no := by simpa [deposit_or_withdraw] using hops.1
      subst hn
      simp only [all_succeed] at hsucc
      have hexec : main_loop head (Cmd.deposit n a :: cs)
          = main_loop (write_account head n
              { acc with balance := F32.add acc.balance a,
                         top := { type := "Deposit", amount := a } :: acc.top }) cs := by
        simp only [main_loop, List.foldl_cons, exec, deposit_eq a hfind]
      have h1 := find_write_account
        { acc with balance := F32.add acc.balance a,
                   top := { type := "Deposit", amount := a } :: acc.top } hfind hno
      have hih := ih _ n _ h1 (by simp) hops.2 hsucc
      rw [hexec, List.length_cons, undo_n, hih]
      simp only [undo_trace, round_trip_balance]
      rw [undo_after_push hfind hne]
      simp [undo_balance]
    | withdraw n a =>
      have hn : n = acc_no := by simpa [deposit_or_withdraw] using hops.1
      subst hn
      simp only [all_succeed, Bool.and_eq_true, Bool.not_eq_true'] at hsucc
      have hexec : main_loop head (Cmd.withdraw n a :: cs)
          = main_loop (write_account head n
              { acc with balance := F32.sub acc.balance a,
                         top := { type := "Withdraw", amount := a } :: acc.top }) cs := by
        simp only [main_loop, List.foldl_cons, exec, withdraw_eq a hfind hsucc.1]
      have h1 := find_write_account
        { acc with balance := F32.sub acc.balance a,
                   top := { type := "Withdraw", amount := a } :: acc.top } hfind hno
      have hih := ih _ n _ h1 (by simp) hops.2 hsucc.2
      rw [hexec, List.length_cons, undo_n, hih]
      simp only [undo_trace, round_trip_balance]
      rw [undo_after_push hfind hne]
      simp [undo_balance]

theorem undo_trace_entries (ops : List Cmd) :
    ∀ (acc_no : Int) (b : F32), ops.all (deposit_or_withdraw acc_no) = true →
      (undo_trace b ops).map undone_entry = ops.reverse.map pushed_entry := by
  induction ops with
  | nil => intro _ _ _; rfl
  | cons c cs ih =>
    intro acc_no b hops
    simp only [List.all_cons, Bool.and_eq_true] at hops
    cases c with
    | add n nm a => simp [deposit_or_withdraw] at hops
    | showAll => simp [deposit_or_withdraw] at hops
    | showTrans n => simp [deposit_or_withdraw] at hops
    | delete n => simp [deposit_or_withdraw] at hops
    | undo n => simp [deposit_or_withdraw] at hops
    | deposit n a =>
      simp [undo_trace, undone_entry, pushed_entry, ih acc_no _ hops.2]
    | withdraw n a =>
      simp [undo_trace, undone_entry, pushed_entry, ih acc_no _ hops.2]

/-- C19 (multi-step undo round trip, amended to float arithmetic): for an account with a
non-empty ledger, after `k` successful Deposit / Withdraw commands on it, `k` consecutive
undos all succeed, report the entries of those commands in reverse order, and leave the
list as before the `k` commands except that the balance of the account is the result of
reversing the float operations, last command first (`round_trip_balance`).  The ledger
is restored exactly; balance and whole list are restored exactly when that result equals
the prior balance. -/
theorem multi_step_undo_round_trip (head : List Account) (acc_no : Int) (acc : Account)
    (ops : List Cmd) (hfind : find_account head acc_no = some acc) (hne : acc.top ≠ [])
    (hops : ops.all (deposit_or_withdraw acc_no) = true)
    (hsucc : all_succeed acc.balance ops = true) :
    undo_n (main_loop head ops) acc_no ops.length
        = (undo_trace acc.balance ops,
           write_account head acc_no
             { acc with balance := round_trip_balance acc.balance ops }) ∧
      (undo_n (main_loop head ops) acc_no ops.length).1.map undone_entry
        = ops.reverse.map pushed_entry ∧
      find_account (undo_n (main_loop head ops) acc_no ops.length).2 acc_no
        = some { acc with balance := round_trip_balance acc.balance ops } ∧
      (round_trip_balance acc.balance ops = acc.balance →
        (undo_n (main_loop head ops) acc_no ops.length).2 = head) := by
  have h := undo_n_round_trip ops head acc_no acc hfind hne hops hsucc
  have hno := find_account_acc_no hfind
  refine ⟨h, ?_, ?_, ?_⟩
  · rw [h]
    exact undo_trace_entries ops acc_no acc.balance hops
  · rw [h]
    exact find_write_account _ hfind hno
  · intro hex
    rw [h, hex]
    exact write_account_self hfind

/-- C19, evaluated where the float operations are exact: on a balance of 150, deposit 50
and withdraw 30, then two undos; the whole list is as before and the undos report the
withdrawal first. -/
theorem multi_step_undo_round_trip_witness :
    (undo_n (main_loop alice_150
        [Cmd.deposit 1 (F32.ofNat 50), Cmd.withdraw 1 (F32.ofNat 30)]) 1 2).2 = alice_150 ∧
    (undo_n (main_loop alice_150
        [Cmd.deposit 1 (F32.ofNat 50), Cmd.withdraw 1 (F32.ofNat 30)]) 1 2).1.map undone_entry
      = [some ("Withdraw", F32.ofNat 30), some ("Deposit", F32.ofNat 50)] :=
  ⟨(multi_step_undo_round_trip alice_150 1
      ⟨1, "Alice", F32.ofNat 150, [⟨"Deposit", F32.ofNat 50⟩, ⟨"Initial", F32.ofNat 100⟩]⟩
      [Cmd.deposit 1 (F32.ofNat 50), Cmd.withdraw 1 (F32.ofNat 30)]
      (by decide) (by decide) (by decide) (by decide)).2.2.2 (by decide),
   (multi_step_undo_round_trip alice_150 1
      ⟨1, "Alice", F32.ofNat 150, [⟨"Deposit", F32.ofNat 50⟩, ⟨"Initial", F32.ofNat 100⟩]⟩
      [Cmd.deposit 1 (F32.ofNat 50), Cmd.withdraw 1 (F32.ofNat 30)]
      (by decide) (by decide) (by decide) (by decide)).2.1⟩

/-- C19 as stated fails: on a balance of 16777216 two deposits of 1 both succeed and
print 16777216; the two undos succeed and restore the ledger, and leave the balance
16777214. -/
theorem multi_step_undo_counterexample :
    (deposit (opened_with 16777216) 1 (F32.ofNat 1)).1
      = Output.depositSuccessful (F32.ofNat 16777216) ∧
    (deposit (deposit (opened_with 16777216) 1 (F32.ofNat 1)).2 1 (F32.ofNat 1)).1
      = Output.depositSuccessful (F32.ofNat 16777216) ∧
    undo_n (main_loop (opened_with 16777216)
        [Cmd.deposit 1 (F32.ofNat 1), Cmd.deposit 1 (F32.ofNat 1)]) 1 2
      = ([Output.undone "Deposit" (F32.ofNat 1) (F32.ofNat 16777215),
          Output.undone "Deposit" (F32.ofNat 1) (F32.ofNat 16777214)],
         [⟨1, "A", F32.ofNat 16777214, [⟨"Initial", F32.ofNat 16777216⟩]⟩]) ∧
    F32.ofNat 16777214 ≠ F32.ofNat 16777216 ∧
    (undo_n (main_loop (opened_with 16777216)
        [Cmd.deposit 1 (F32.ofNat 1), Cmd.deposit 1 (F32.ofNat 1)]) 1 2).2
      ≠ opened_with 16777216 :=
  ⟨by decide, by decide, by decide, by decide, by decide⟩

end BankingSystem
